import Mathlib

/-!
# mcorr-vcf: a shallow embedding of `main.go`

The Go program reads a VCF file line by line (`readVCF`), decodes the sample
columns of every biallelic line into a genotype vector, slides a window over
the resulting record stream (`main`) and folds one statistic per buffered
pair into two per-lag arrays (`compute`).

Conventions of the embedding:

* Go strings are Lean `String`s (the input is taken to be valid UTF-8);
  `len(s)` is the byte length `String.utf8ByteSize`, `range s` enumerates the
  characters `s.data`.
* `byte` values are `Nat`s below 256, with explicit `% 256` at every
  conversion and subtraction.
* `int` / `int64` values are `Int`s; subtraction and increment wrap to the
  signed 64-bit range through `wrapInt`.
* a Go panic is `Except.error`.
* `float64` arithmetic and the accumulator of package `mcorr` are external:
  they are parameters (`FloatOps`, `NuclCov`).
-/

namespace McorrVcf

/-! ## Machine integers and bytes -/

/-- Wrap an integer to the signed 64-bit range, as Go arithmetic on `int`
(64-bit platforms) and `int64` does. -/
def wrapInt (x : Int) : Int := (x + 2 ^ 63) % 2 ^ 64 - 2 ^ 63

/-- Go `a - b` on `int`. -/
def subInt (a b : Int) : Int := wrapInt (a - b)

/-- Go `byte(gt)` for a rune `gt`: the low eight bits. -/
def byteOf (c : Char) : Nat := c.toNat % 256

/-- Go `a - b` on `byte` (unsigned, modulo 256). -/
def subByte (a b : Nat) : Nat := (a + 256 - b % 256) % 256

/-- Go `len(s)` for a string: the number of bytes. -/
def len (s : String) : Nat := s.utf8ByteSize

/-! ## Errors -/

/-- The ways the program panics. -/
inductive Err where
  /-- An index or slice bound out of range. -/
  | indexOutOfRange
  /-- `atoi` got a string `strconv.Atoi` rejects. -/
  | atoi
  /-- `make` with a negative length. -/
  | makeNegative
deriving DecidableEq, Repr

/-- Go `xs[i]` with `i : int`: panics out of range. -/
def index {α : Type} (xs : List α) (i : Int) : Except Err α :=
  if i < 0 then .error .indexOutOfRange
  else match xs[i.toNat]? with
    | some x => .ok x
    | none => .error .indexOutOfRange

/-! ## Records -/

/-- Modelled from the spec: the record type `VCFRecord` is declared outside
`main.go`; its fields are those `main.go` reads and writes (`Chrom`, `Pos`,
`Ref`, `Alt`, `GTs`) with the types of spec section 3 (`GTs` is a `[]byte`). -/
structure VCFRecord where
  /-- Chromosome identifier. -/
  Chrom : String
  /-- Position. -/
  Pos : Int
  /-- Reference allele column. -/
  Ref : String
  /-- Alternate allele column. -/
  Alt : String
  /-- Genotype codes, one byte each. -/
  GTs : List Nat
deriving DecidableEq, Repr

/-! ## `atoi` -/

/-- Value of a run of ASCII decimal digits, `none` if some character is not
a digit (the digit loop of `strconv.Atoi`). -/
def parseDigits : Nat → List Char → Option Nat
  | acc, [] => some acc
  | acc, c :: cs =>
    if 48 ≤ c.toNat ∧ c.toNat ≤ 57 then parseDigits (acc * 10 + (c.toNat - 48)) cs
    else none

/-- The standard library's `strconv.Atoi`: an optional sign, then at least one
decimal digit and nothing else, the value in the 64-bit range. -/
def strconvAtoi (s : String) : Option Int :=
  let body (neg : Bool) (ds : List Char) : Option Int :=
    match ds with
    | [] => none
    | _ :: _ =>
      match parseDigits 0 ds with
      | none => none
      | some n =>
        let v : Int := if neg then -(n : Int) else (n : Int)
        if -(2 ^ 63 : Int) ≤ v ∧ v < 2 ^ 63 then some v else none
  match s.data with
  | [] => none
  | c :: cs =>
    if c = '-' then body true cs
    else if c = '+' then body false cs
    else body false (c :: cs)

/-- The function `atoi` of main.go: panics when `strconv.Atoi` fails. -/
def atoi (s : String) : Except Err Int :=
  match strconvAtoi s with
  | some v => .ok v
  | none => .error .atoi

/-! ## Genotype decoding (the body of the `inGT` branch of `readVCF`) -/

/-- First loop over the token: `phased` stays true unless a '/' is met. -/
def isPhased : List Char → Bool
  | [] => true
  | gt :: rest => if gt = '/' then false else isPhased rest

/-- The loop `for _, gt := range t { if gt != '|' { GTs = append(GTs, byte(gt)) } }`:
the bytes it appends. -/
def appendNonBar : List Char → List Nat
  | [] => []
  | gt :: rest => if gt ≠ '|' then byteOf gt :: appendNonBar rest else appendNonBar rest

/-- The unphased loop: the value of `current` when the loop is left, started
with `current`. -/
def unphasedCurrent : Nat → List Char → Nat
  | current, [] => current
  | current, gt :: rest =>
    if gt = '/' then unphasedCurrent current rest
    else if current ≠ 0 ∧ current ≠ byteOf gt then 0
    else unphasedCurrent (byteOf gt) rest

/-- The bytes appended by the `if phased { ... } else { ... }` statement
(main.go lines 158-179). -/
def branchCodes (t : List Char) : List Nat :=
  if isPhased t then appendNonBar t
  else
    let current := unphasedCurrent 0 t
    if current ≠ 0 then [current] else []

/-- All the bytes one sample token appends to `rec.GTs`: the phased/unphased
statement, then the loop of main.go lines 180-184, which runs for every token. -/
def tokenCodes (t : String) : List Nat :=
  branchCodes t.data ++ appendNonBar t.data

/-- The loop `for _, t := range terms` of `readVCF`, as a state passed along:
`inGT` and the genotype vector built so far. -/
def decodeTerms : Bool → List Nat → List String → List Nat
  | _, gts, [] => gts
  | inGT, gts, t :: rest =>
    if t = "GT" then decodeTerms true gts rest
    else if inGT then decodeTerms true (gts ++ tokenCodes t) rest
    else decodeTerms inGT gts rest

/-! ## Lines -/

/-- Go's `unicode.IsSpace`. -/
def isSpace (c : Char) : Bool :=
  let n := c.toNat
  (9 ≤ n && n ≤ 13) || n == 32 || n == 0x85 || n == 0xA0 || n == 0x1680
    || (0x2000 ≤ n && n ≤ 0x200A) || n == 0x2028 || n == 0x2029 || n == 0x202F
    || n == 0x205F || n == 0x3000

/-- Go's `strings.TrimSpace`, on the characters of the string. -/
def trimSpace (s : List Char) : List Char :=
  ((s.dropWhile isSpace).reverse.dropWhile isSpace).reverse

/-- Go's `strings.Split(s, sep)` for a one-character separator: the pieces
between the separators, always at least one piece. -/
def splitOn (sep : Char) : List Char → List (List Char)
  | [] => [[]]
  | c :: cs =>
    if c = sep then [] :: splitOn sep cs
    else match splitOn sep cs with
      | [] => [[c]]
      | piece :: pieces => (c :: piece) :: pieces

/-- The columns of a line: `strings.Split(strings.TrimSpace(line), "\t")`. -/
def termsOf (line : String) : List String :=
  (splitOn '\t' (trimSpace line.data)).map String.mk

/-- Go `terms[i]`. -/
def term (terms : List String) (i : Nat) : Except Err String :=
  match terms[i]? with
  | some t => .ok t
  | none => .error .indexOutOfRange

/-- One data line of `readVCF` (main.go lines 138-188), given its columns:
the record sent on the channel, `none` when the line is filtered out, an
error when the goroutine panics. -/
def recordOfTerms (terms : List String) : Except Err (Option VCFRecord) :=
  match term terms 0 with
  | .error e => .error e
  | .ok chrom =>
    match term terms 1 with
    | .error e => .error e
    | .ok posText =>
      match atoi posText with
      | .error e => .error e
      | .ok pos =>
        match term terms 3 with
        | .error e => .error e
        | .ok ref =>
          match term terms 4 with
          | .error e => .error e
          | .ok alt =>
            if len alt = 1 ∧ len ref = 1 then
              .ok (some { Chrom := chrom, Pos := pos, Ref := ref, Alt := alt,
                          GTs := decodeTerms false [] terms })
            else .ok none

/-- Whether the line is skipped as a comment: `line[0] == '#'`. -/
def isComment (line : String) : Bool :=
  match line.data with
  | c :: _ => c = '#'
  | [] => false

/-- One non-comment line of `readVCF`. -/
def parseLine (line : String) : Except Err (Option VCFRecord) :=
  recordOfTerms (termsOf line)

/-- The lines `rd.ReadString` returns with a nil error: each ends with its
newline; a last piece without a newline comes with `io.EOF` and is dropped by
the `break`. -/
def readLines : List Char → List Char → List String
  | _, [] => []
  | cur, c :: cs =>
    if c = '\n' then String.mk (cur ++ [c]) :: readLines [] cs
    else readLines (cur ++ [c]) cs

/-- The read loop of `readVCF` over the lines: the records sent on the
channel, in order, and the panic that ended the goroutine, if any. -/
def readVCFLines : List String → List VCFRecord × Option Err
  | [] => ([], none)
  | line :: rest =>
    if isComment line then readVCFLines rest
    else match parseLine line with
      | .error e => ([], some e)
      | .ok none => readVCFLines rest
      | .ok (some r) => (r :: (readVCFLines rest).1, (readVCFLines rest).2)

/-- The function `readVCF` on the content of the file. -/
def readVCF (content : String) : List VCFRecord × Option Err :=
  readVCFLines (readLines [] content.data)

/-! ## External collaborators -/

/-- The `float64` operations the program uses, as parameters. -/
structure FloatOps (F : Type) where
  /-- The zero value `make([]float64, n)` fills the array with. -/
  zero : F
  /-- Addition, `x + y`. -/
  add : F → F → F
  /-- Division, `x / y`. -/
  div : F → F → F
  /-- Conversion `float64(n)` of an `int` or `int64`. -/
  ofInt : Int → F

/-- Modelled from the spec: the accumulator `NuclCov` of package `mcorr` is
not part of main.go. Spec section 6: "a pairwise genotype accumulator
constructible over a fixed allele alphabet, exposing record one genotype pair
and query identity statistic at an offset, returning (numerator, sample
count)". Its operations are parameters. -/
structure NuclCov (F : Type) where
  /-- The accumulator's content. -/
  State : Type
  /-- The constructor `NewNuclCov(alphabet)`. -/
  new : List Nat → State
  /-- The method `Add(a, b)`. -/
  add : State → Nat → Nat → State
  /-- The method `P11(minAlleleNum)`, returning `(xy, n)`. -/
  p11 : State → Int → F × Int

/-! ## `compute` -/

/-- The two per-lag arrays `p2arr` and `p2counts`. -/
structure Acc (F : Type) where
  /-- Sums of the per-pair statistic, `[]float64`. -/
  p2arr : List F
  /-- Number of pairs folded in, `[]int64`. -/
  p2counts : List Int

/-- The guard `a-'0' >= 0 && a-'0' <= 3 && b-'0' >= 0 && b-'0' <= 3`, on bytes. -/
def validPair (a b : Nat) : Bool :=
  decide (subByte a 48 ≥ 0) && decide (subByte a 48 ≤ 3) &&
    decide (subByte b 48 ≥ 0) && decide (subByte b 48 ≤ 3)

/-- The loop over the sample indices `k` (either loop of main.go lines 88-104),
the indices given in the order they are visited. -/
def addSamples {F : Type} (nc : NuclCov F) (anchor other : List Nat) :
    nc.State → List Int → Except Err nc.State
  | st, [] => .ok st
  | st, k :: ks =>
    match index anchor k with
    | .error e => .error e
    | .ok a =>
      match index other k with
      | .error e => .error e
      | .ok b => addSamples nc anchor other (if validPair a b then nc.add st a b else st) ks

/-- The indices the sample loop visits: the keys of `indexMap` (in the order
the map enumerates them) when a map is configured, else `0 .. len(GTs)-1`. -/
def sampleKeys (indexMap : Option (List Int)) (anchor : VCFRecord) : List Int :=
  match indexMap with
  | some keys => keys
  | none => (List.range anchor.GTs.length).map Int.ofNat

/-- The two statements of main.go lines 108-109: `p2arr[lag] += xy / float64(n)`
and `p2counts[lag]++`. -/
def foldIn {F : Type} (ops : FloatOps F) (acc : Acc F) (lag : Int) (xy : F) (n : Int) :
    Except Err (Acc F) :=
  match index acc.p2arr lag with
  | .error e => .error e
  | .ok v =>
    match index acc.p2counts lag with
    | .error e => .error e
    | .ok c =>
      .ok { p2arr := acc.p2arr.set lag.toNat (ops.add v (ops.div xy (ops.ofInt n))),
            p2counts := acc.p2counts.set lag.toNat (wrapInt (c + 1)) }

/-- The statement of main.go lines 107-110: the coverage filter
`n > len(buffer[0].GTs)/2` and the update of the two arrays at `lag`, for a
pair with statistic `xy`, sample count `n` and an anchor whose genotype vector
has length `L`. -/
def foldPair {F : Type} (ops : FloatOps F) (acc : Acc F) (lag : Int) (xy : F) (n : Int)
    (L : Nat) : Except Err (Acc F) :=
  if n > ((L / 2 : Nat) : Int) then foldIn ops acc lag xy n
  else .ok acc

/-- One iteration of the loop of `compute`: the anchor `buffer[0]` against
`other = buffer[i]`. -/
def computeOne {F : Type} (ops : FloatOps F) (nc : NuclCov F) (indexMap : Option (List Int))
    (anchor other : VCFRecord) (acc : Acc F) : Except Err (Acc F) :=
  match addSamples nc anchor.GTs other.GTs (nc.new [48, 49, 50, 51])
      (sampleKeys indexMap anchor) with
  | .error e => .error e
  | .ok st =>
    let lag := subInt other.Pos anchor.Pos
    foldPair ops acc lag (nc.p11 st 0).1 (nc.p11 st 0).2 anchor.GTs.length

/-- The loop `for i := 0; i < len(buffer); i++` of `compute`, over the records
still to visit. -/
def computeLoop {F : Type} (ops : FloatOps F) (nc : NuclCov F) (indexMap : Option (List Int))
    (anchor : VCFRecord) : Acc F → List VCFRecord → Except Err (Acc F)
  | acc, [] => .ok acc
  | acc, other :: rest =>
    match computeOne ops nc indexMap anchor other acc with
    | .error e => .error e
    | .ok acc1 => computeLoop ops nc indexMap anchor acc1 rest

/-- The function `compute`. -/
def compute {F : Type} (ops : FloatOps F) (nc : NuclCov F) (indexMap : Option (List Int))
    (buffer : List VCFRecord) (acc : Acc F) : Except Err (Acc F) :=
  match buffer with
  | [] => .ok acc
  | anchor :: _ => computeLoop ops nc indexMap anchor acc buffer

/-! ## The main loop -/

/-- The command-line configuration. -/
structure Config where
  /-- Flag `max-corr-length`. -/
  maxl : Int
  /-- Flag `region-start`. -/
  regionStart : Int
  /-- Flag `region-end`. -/
  regionEnd : Int
  /-- Flag `chrom`, the empty string when not given. -/
  chrom : String

/-- The variables of the main loop; `acc` is what the calls of `compute`
update. -/
structure LoopState (α : Type) where
  /-- The window buffer. -/
  buffer : List VCFRecord
  /-- The variable `currentChromo`. -/
  currentChromo : String
  /-- The state threaded through `compute`. -/
  acc : α

/-- The condition of the `if` of main.go line 51. -/
def canAppend {α : Type} (cfg : Config) (st : LoopState α) (r : VCFRecord) : Bool :=
  (st.currentChromo == "" || st.currentChromo == r.Chrom) &&
    (match st.buffer with
     | [] => true
     | b0 :: _ => decide (subInt r.Pos b0.Pos < cfg.maxl))

/-- One iteration of `for rec := range vcfChan` (main.go lines 45-56), the
call of `compute` being the parameter `f`: `none` is `break`. -/
def loopBody {α : Type} (cfg : Config) (f : List VCFRecord → α → Except Err α)
    (st : LoopState α) (r : VCFRecord) : Except Err (Option (LoopState α)) :=
  if r.Pos < cfg.regionStart ∨ r.Pos > cfg.regionEnd then .ok none
  else if cfg.chrom ≠ "" ∧ cfg.chrom ≠ r.Chrom then .ok (some st)
  else if canAppend cfg st r then .ok (some { st with buffer := st.buffer ++ [r] })
  else
    match f st.buffer st.acc with
    | .error e => .error e
    | .ok acc1 =>
      match st.buffer with
      | [] => .error .indexOutOfRange
      | _ :: tl => .ok (some { st with buffer := tl, acc := acc1 })

/-- The loop `for rec := range vcfChan` over the records the channel delivers. -/
def rangeLoop {α : Type} (cfg : Config) (f : List VCFRecord → α → Except Err α) :
    LoopState α → List VCFRecord → Except Err (LoopState α)
  | st, [] => .ok st
  | st, r :: rs =>
    match loopBody cfg f st r with
    | .error e => .error e
    | .ok none => .ok st
    | .ok (some st1) => rangeLoop cfg f st1 rs

/-- Lines 42-58 of `main`: the loop from the empty buffer, then the final call
of `compute` on what is left in the buffer. Returns the buffer at the end of
the loop and the final state. -/
def windowRun {α : Type} (cfg : Config) (f : List VCFRecord → α → Except Err α)
    (init : α) (recs : List VCFRecord) : Except Err (List VCFRecord × α) :=
  match rangeLoop cfg f { buffer := [], currentChromo := "", acc := init } recs with
  | .error e => .error e
  | .ok st =>
    match f st.buffer st.acc with
    | .error e => .error e
    | .ok acc1 => .ok (st.buffer, acc1)

/-- Lines 40-58 of `main`: the two arrays after the run over the records. -/
def mainRun {F : Type} (ops : FloatOps F) (nc : NuclCov F) (indexMap : Option (List Int))
    (cfg : Config) (recs : List VCFRecord) : Except Err (Acc F) :=
  if cfg.maxl < 0 then .error .makeNegative
  else
    match windowRun cfg (compute ops nc indexMap)
        { p2arr := List.replicate cfg.maxl.toNat ops.zero,
          p2counts := List.replicate cfg.maxl.toNat 0 } recs with
    | .error e => .error e
    | .ok res => .ok res.2

/-! ## Output -/

/-- One line of the output table, `"%d,%g,0,%d,%s,all"`: the lag, the value,
the count and the label. -/
structure Row (F : Type) where
  /-- The lag `k`. -/
  l : Nat
  /-- The value `m`. -/
  m : F
  /-- The count `n`. -/
  n : Int
  /-- The label `t`. -/
  t : String

/-- The loop of main.go lines 66-81 over the lags still to visit: the rows
written. -/
def outputLoop {F : Type} (ops : FloatOps F) (acc : Acc F) : List Nat → Except Err (List (Row F))
  | [] => .ok []
  | k :: ks =>
    match index acc.p2counts k with
    | .error e => .error e
    | .ok n =>
      match index acc.p2arr 0, index acc.p2counts 0, index acc.p2arr k with
      | .ok s0, .ok c0, .ok sk =>
        let m := if k = 0 then ops.div s0 (ops.ofInt c0) else ops.div sk s0
        let t := if k = 0 then "Ks" else "P2"
        match outputLoop ops acc ks with
        | .error e => .error e
        | .ok rows => .ok (if n > 0 then { l := k, m := m, n := n, t := t } :: rows else rows)
      | _, _, _ => .error .indexOutOfRange

/-- The rows of the output table (after the header line). -/
def outputRows {F : Type} (ops : FloatOps F) (acc : Acc F) : Except Err (List (Row F)) :=
  outputLoop ops acc (List.range acc.p2arr.length)

/-! ## What the window hands to `compute` -/

/-- The calls of `compute` made by lines 42-58 of `main`, in order: each call
is recorded with the buffer it receives. Returns the buffer at the end of the
loop and the list of calls. -/
def dispatchTrace (cfg : Config) (recs : List VCFRecord) :
    Except Err (List VCFRecord × List (List VCFRecord)) :=
  windowRun cfg (fun buffer calls => .ok (calls ++ [buffer])) [] recs

/-- The pairs `(buffer[0], buffer[i])` one call of `compute` visits. -/
def pairsOfCall (buffer : List VCFRecord) : List (VCFRecord × VCFRecord) :=
  match buffer with
  | [] => []
  | anchor :: _ => buffer.map (fun other => (anchor, other))

/-- All the pairs handed to `compute` by a list of calls. -/
def pairsOfCalls (calls : List (List VCFRecord)) : List (VCFRecord × VCFRecord) :=
  calls.flatMap pairsOfCall


/-- The pairs handed to `compute` by lines 42-58 of `main`, in order. -/
def dispatchedPairs (cfg : Config) (recs : List VCFRecord) :
    Except Err (List (VCFRecord × VCFRecord)) :=
  match dispatchTrace cfg recs with
  | .error e => .error e
  | .ok res => .ok (pairsOfCalls res.2)

/-- The anchors `buffer[0]` of the calls of `compute`, in order. -/
def anchorsOfCalls (calls : List (List VCFRecord)) : List VCFRecord :=
  calls.filterMap List.head?

/-- Spec section 8, property 1 (window completeness), in the spec's words: the
pairs `(i, j)`, `i ≤ j`, of a record sequence with
`position[j] − position[i] < max_lag`, each once, given as pairs of records. -/
def specWindowPairs (maxl : Int) : List VCFRecord → List (VCFRecord × VCFRecord)
  | [] => []
  | r :: rs =>
    ((r :: rs).filter (fun o => decide (o.Pos - r.Pos < maxl))).map (fun o => (r, o))
      ++ specWindowPairs maxl rs

/-! ## Two-allele calls (vocabulary of the genotype-vector claims) -/

/-- An allele character of a genotype call: a decimal digit or '.'. -/
def isAlleleChar (c : Char) : Bool :=
  decide ((48 ≤ c.toNat ∧ c.toNat ≤ 57) ∨ c.toNat = 46)

/-- The three kinds of two-allele calls: phased `a|b`, unphased with equal
alleles `a/a`, unphased with different alleles `a/b`. -/
inductive CallKind where
  /-- A call `a|b`. -/
  | phased
  /-- A call `a/a`. -/
  | unphasedSame
  /-- A call `a/b` with `a ≠ b`. -/
  | unphasedDiff
deriving DecidableEq, Repr

/-- The kind of a sample column, `none` when it is not a two-allele call of
single allele characters. -/
def callKind (t : String) : Option CallKind :=
  match t.data with
  | [a, sep, b] =>
    if isAlleleChar a = true ∧ isAlleleChar b = true then
      if sep = '|' then some .phased
      else if sep = '/' then (if a = b then some .unphasedSame else some .unphasedDiff)
      else none
    else none
  | _ => none

/-- The number of codes `readVCF` appends for a call of each kind. -/
def codesPerCall : CallKind → Nat
  | .phased => 4
  | .unphasedSame => 4
  | .unphasedDiff => 3

/-! ## Concrete inputs -/

/-- The default flags: `max-corr-length` 300, region 1 to 10^12, no `chrom`. -/
def defaultConfig : Config :=
  { maxl := 300, regionStart := 1, regionEnd := 1000000000000, chrom := "" }

/-- A biallelic site on chromosome `chrom` at `pos`, one sample, homozygous
reference: its genotype vector is what `readVCF` builds from the token `0|0`. -/
def site (chrom : String) (pos : Int) : VCFRecord :=
  { Chrom := chrom, Pos := pos, Ref := "A", Alt := "C", GTs := tokenCodes "0|0" }

/-- Exact rational arithmetic standing in for `float64`, to evaluate the model
on concrete inputs. -/
def exactOps : FloatOps ℚ :=
  { zero := 0, add := fun x y => x + y, div := fun x y => x / y, ofInt := fun n => (n : ℚ) }

/-- Modelled from the spec: a stand-in for the accumulator of package `mcorr`,
to evaluate the model on concrete inputs. Its sample count `n` is the number
of pairs recorded (spec section 4.4: the filter passes when "more than half of
all samples produced a usable pair"); its numerator `xy` is the number of
recorded pairs whose two codes are equal. -/
def countingNuclCov : NuclCov ℚ :=
  { State := Nat × Nat
    new := fun _ => (0, 0)
    add := fun s a b => (if a = b then s.1 + 1 else s.1, s.2 + 1)
    p11 := fun s _ => ((s.1 : ℚ), (s.2 : Int)) }

/-- The default flags with `--chrom 1`. -/
def scenarioConfig : Config :=
  { maxl := 300, regionStart := 1, regionEnd := 1000000000000, chrom := "1" }

/-- A two-chromosome VCF file, one sample: chromosome 1 has three biallelic
sites at 100, 150 and 600, chromosome 2 one site at 100; every call is
homozygous reference. -/
def scenarioFile : String :=
  "##fileformat=VCFv4.2\n" ++
  "#CHROM\tPOS\tID\tREF\tALT\tQUAL\tFILTER\tINFO\tFORMAT\ts1\n" ++
  "1\t100\t.\tA\tC\t.\t.\t.\tGT\t0|0\n" ++
  "1\t150\t.\tA\tC\t.\t.\t.\tGT\t0|0\n" ++
  "1\t600\t.\tA\tC\t.\t.\t.\tGT\t0|0\n" ++
  "2\t100\t.\tA\tC\t.\t.\t.\tGT\t0|0\n"

/-- The fields of an output row other than the floating-point value: lag,
count, label. -/
def rowKey {F : Type} (r : Row F) : Nat × Int × String := (r.l, r.n, r.t)

/-- The accumulator after `Add('0', '0')` for each of the four codes of a
site's genotype vector. -/
def fourReferencePairs {F : Type} (nc : NuclCov F) : nc.State :=
  nc.add (nc.add (nc.add (nc.add (nc.new [48, 49, 50, 51]) 48 48) 48 48) 48 48) 48 48

/-! ## Region bounds -/

/-- The record lies inside the region bounds, both inclusive:
`region_start <= position <= region_end`. -/
def inRegion (cfg : Config) (r : VCFRecord) : Bool :=
  decide (cfg.regionStart ≤ r.Pos ∧ r.Pos ≤ cfg.regionEnd)

/-! ## Decimal integers (vocabulary of the position-parse claim) -/

/-- A decimal digit character. -/
def isDigitChar (c : Char) : Bool := decide (48 ≤ c.toNat ∧ c.toNat ≤ 57)

/-- The text is a decimal integer: an optional sign `+` or `-`, then at least
one decimal digit and nothing else. -/
def isDecimalInteger (s : String) : Bool :=
  match s.data with
  | [] => false
  | c :: cs =>
    if c = '-' ∨ c = '+' then !cs.isEmpty && cs.all isDigitChar
    else (c :: cs).all isDigitChar

/-! ## Vocabulary of the window claims -/

/-- The callback that stands for `compute` in `dispatchTrace`: it appends the
buffer it receives to the list of calls. -/
def recordCall (buffer : List VCFRecord) (calls : List (List VCFRecord)) :
    Except Err (List (List VCFRecord)) :=
  .ok (calls ++ [buffer])

/-- The positions of the records are non-decreasing. -/
def SortedByPos (recs : List VCFRecord) : Prop :=
  recs.Pairwise (fun a b => a.Pos ≤ b.Pos)

/-- The positions are genomic coordinates held in an `int`: non-negative and
below `2^63`. -/
def PosInRange (recs : List VCFRecord) : Prop :=
  ∀ r ∈ recs, 0 ≤ r.Pos ∧ r.Pos < 2 ^ 63

/-- Every record behind the first lies less than `maxl` beyond the first. -/
def WithinLag (maxl : Int) : List VCFRecord → Prop
  | [] => True
  | b0 :: tl => ∀ r ∈ tl, r.Pos - b0.Pos < maxl

/-- What the main loop maintains of its buffer on a sorted stream. -/
def GoodBuffer (maxl : Int) (buffer : List VCFRecord) : Prop :=
  SortedByPos buffer ∧ PosInRange buffer ∧ WithinLag maxl buffer

/-- The flags with `max-corr-length 0`. -/
def zeroLagConfig : Config :=
  { maxl := 0, regionStart := 1, regionEnd := 1000000000000, chrom := "" }

/-- The default `max-corr-length` with the region bounds opened to the whole
range of a 64-bit `int`. -/
def wideRegionConfig : Config :=
  { maxl := 300, regionStart := -9223372036854775808, regionEnd := 9223372036854775807,
    chrom := "" }

/-! ## Theorems -/

/-- C1 (window completeness), evaluated on the claim's own example: for the
sites at 100, 150, 600 on one chromosome and `max_lag = 300` the loop and the
final flush hand `compute` the pairs (0,0), (0,1), (1,1) only; the pair (2,2)
the specification lists is never dispatched, because the record at 600, which
triggers the dispatch of anchor 100, is not appended to the buffer. -/
theorem window_run_100_150_600 :
    dispatchedPairs defaultConfig [site "1" 100, site "1" 150, site "1" 600]
        = .ok [(site "1" 100, site "1" 100), (site "1" 100, site "1" 150),
               (site "1" 150, site "1" 150)]
      ∧ specWindowPairs 300 [site "1" 100, site "1" 150, site "1" 600]
        = [(site "1" 100, site "1" 100), (site "1" 100, site "1" 150),
           (site "1" 150, site "1" 150), (site "1" 600, site "1" 600)]
      ∧ (site "1" 600, site "1" 600) ∉
          [(site "1" 100, site "1" 100), (site "1" 100, site "1" 150),
           (site "1" 150, site "1" 150)] :=
  ⟨rfl, rfl, by decide⟩

/-! ### What a sample token appends -/

theorem tokenCodes_phased (t : String) (h : isPhased t.data = true) :
    tokenCodes t = appendNonBar t.data ++ appendNonBar t.data := by
  simp only [tokenCodes, branchCodes, h, if_true]

theorem tokenCodes_unphased (t : String) (h : isPhased t.data = false) :
    tokenCodes t
      = (if unphasedCurrent 0 t.data ≠ 0 then [unphasedCurrent 0 t.data] else [])
          ++ appendNonBar t.data := by
  simp only [tokenCodes, branchCodes, h, Bool.false_eq_true, if_false]

/-- C2 (phased decode), evaluated: the token `0|1` appends four codes,
'0','1','0','1', not the two codes '0','1': the loop of main.go lines 180-184
appends the token's characters a second time. -/
theorem phased_token_0_1_codes :
    tokenCodes "0|1" = [byteOf '0', byteOf '1', byteOf '0', byteOf '1']
      ∧ tokenCodes "0|1" ≠ [byteOf '0', byteOf '1']
      ∧ parseLine "1\t100\t.\tA\tC\t.\t.\t.\tGT\t0|1\n"
        = .ok (some { Chrom := "1", Pos := 100, Ref := "A", Alt := "C",
                      GTs := [byteOf '0', byteOf '1', byteOf '0', byteOf '1'] }) :=
  ⟨by decide, by decide, rfl⟩

/-- C3 (unphased decode), evaluated: the token `1/1` appends '1','1','/','1'
(not the single code '1') and the token `0/1` appends '0','/','1' (not
nothing): after the unphased branch, the loop of main.go lines 180-184 appends
every character of the token other than '|', the separator '/' included. -/
theorem unphased_tokens_codes :
    tokenCodes "1/1" = [byteOf '1', byteOf '1', byteOf '/', byteOf '1']
      ∧ tokenCodes "0/1" = [byteOf '0', byteOf '/', byteOf '1']
      ∧ branchCodes "1/1".data = [byteOf '1']
      ∧ branchCodes "0/1".data = [] :=
  ⟨by decide, by decide, by decide, by decide⟩

/-- C7 (pairs never cross chromosomes), evaluated: with no chromosome
filter, a site on chromosome 1 at 100 followed by a site on chromosome 2 at
150 end up together in the buffer, and the final flush hands `compute` the pair
of the two, whose chromosomes differ: `currentChromo` is never assigned, so
the test of main.go line 51 never sees a chromosome change. -/
theorem buffer_mixes_chromosomes :
    dispatchTrace defaultConfig [site "1" 100, site "2" 150]
        = .ok ([site "1" 100, site "2" 150], [[site "1" 100, site "2" 150]])
      ∧ dispatchedPairs defaultConfig [site "1" 100, site "2" 150]
        = .ok [(site "1" 100, site "1" 100), (site "1" 100, site "2" 150)]
      ∧ (site "1" 100).Chrom ≠ (site "2" 150).Chrom :=
  ⟨rfl, rfl, by decide⟩

/-- C8 (anchor dispatch), evaluated: for the sites at 100 and 150 and
`max_lag = 300` both records are appended to the buffer, and the run makes a
single call of `compute`, whose anchor is the site at 100: the site at 150 is
never dispatched as the anchor, the final flush being one call and not one
call per record left in the buffer. -/
theorem last_anchor_not_dispatched :
    dispatchTrace defaultConfig [site "1" 100, site "1" 150]
        = .ok ([site "1" 100, site "1" 150], [[site "1" 100, site "1" 150]])
      ∧ anchorsOfCalls [[site "1" 100, site "1" 150]] = [site "1" 100]
      ∧ site "1" 150 ∉ anchorsOfCalls [[site "1" 100, site "1" 150]] :=
  ⟨rfl, rfl, by decide⟩

/-! ### Indexing lemmas -/

theorem index_eq_ok_iff {α : Type} (xs : List α) (i : Int) (v : α) :
    index xs i = .ok v ↔ 0 ≤ i ∧ xs[i.toNat]? = some v := by
  unfold index
  by_cases h : i < 0
  · simp [h]
  · simp only [h, if_false]
    cases hx : xs[i.toNat]? <;> simp [not_lt.mp h]

theorem index_set_self {α : Type} (xs : List α) (i : Int) (v w : α)
    (h : index xs i = .ok v) : index (xs.set i.toNat w) i = .ok w := by
  rw [index_eq_ok_iff] at h ⊢
  refine ⟨h.1, ?_⟩
  have hlt : i.toNat < xs.length := by
    by_contra hc
    have := List.getElem?_eq_none (not_lt.mp hc)
    rw [this] at h
    exact absurd h.2 (by simp)
  simp [List.getElem?_set, hlt]

theorem index_set_other {α : Type} (xs : List α) (i j : Int) (w : α)
    (hj : 0 ≤ j) (hij : i ≠ j) : index (xs.set j.toNat w) i = index xs i := by
  unfold index
  by_cases h : i < 0
  · simp [h]
  · have hne : j.toNat ≠ i.toNat := by omega
    simp [h, List.getElem?_set, hne]

/-! ### The coverage filter -/

theorem wrapInt_succ_ne (c : Int) : wrapInt (c + 1) ≠ c := by
  unfold wrapInt
  omega

theorem wrapInt_of_range (x : Int) (h1 : -(2 ^ 63 : Int) ≤ x) (h2 : x < 2 ^ 63) :
    wrapInt x = x := by
  unfold wrapInt
  omega

theorem foldIn_ne_self {F : Type} (ops : FloatOps F) (acc : Acc F) (lag : Int) (xy : F)
    (n : Int) : foldIn ops acc lag xy n ≠ .ok acc := by
  unfold foldIn
  cases hv : index acc.p2arr lag with
  | error e => simp
  | ok v =>
    cases hc : index acc.p2counts lag with
    | error e => simp
    | ok c =>
      intro h
      have h1 : acc.p2counts.set lag.toNat (wrapInt (c + 1)) = acc.p2counts := by
        have := congrArg Acc.p2counts (Except.ok.inj h)
        simpa using this
      have h2 := index_set_self acc.p2counts lag c (wrapInt (c + 1)) hc
      rw [h1, hc] at h2
      exact wrapInt_succ_ne c (Except.ok.inj h2).symm

theorem half_lt_iff (n : Int) (L : Nat) : n > ((L / 2 : Nat) : Int) ↔ 2 * n > (L : Int) := by
  omega

/-- C4 (coverage filter is strict): for an anchor whose genotype vector has
length `L` and a pair whose accumulator reports the sample count `n` (the
sample loop having run without a panic), `compute` carries out the update of
the two arrays exactly when `2 * n > L`; otherwise, and only then, it leaves
the accumulators as they were; a pair with `n` exactly half of `L` is
excluded. -/
theorem coverage_filter_strict {F : Type} (ops : FloatOps F) (nc : NuclCov F)
    (indexMap : Option (List Int)) (anchor other : VCFRecord) (acc : Acc F) (st : nc.State)
    (hst : addSamples nc anchor.GTs other.GTs (nc.new [48, 49, 50, 51])
      (sampleKeys indexMap anchor) = .ok st) :
    computeOne ops nc indexMap anchor other acc
        = (if 2 * (nc.p11 st 0).2 > (anchor.GTs.length : Int) then
            foldIn ops acc (subInt other.Pos anchor.Pos) (nc.p11 st 0).1 (nc.p11 st 0).2
          else .ok acc)
      ∧ (computeOne ops nc indexMap anchor other acc = .ok acc
          ↔ ¬ 2 * (nc.p11 st 0).2 > (anchor.GTs.length : Int))
      ∧ (2 * (nc.p11 st 0).2 = (anchor.GTs.length : Int)
          → computeOne ops nc indexMap anchor other acc = .ok acc) := by
  have key : computeOne ops nc indexMap anchor other acc
        = (if 2 * (nc.p11 st 0).2 > (anchor.GTs.length : Int) then
            foldIn ops acc (subInt other.Pos anchor.Pos) (nc.p11 st 0).1 (nc.p11 st 0).2
          else .ok acc) := by
    unfold computeOne
    rw [hst]
    simp only [foldPair, half_lt_iff]
  refine ⟨key, ?_, ?_⟩
  · rw [key]
    by_cases h : 2 * (nc.p11 st 0).2 > (anchor.GTs.length : Int)
    · simp only [h, if_true, not_true, iff_false]
      exact foldIn_ne_self ops acc _ _ _
    · simp [h]
  · intro h
    rw [key, if_neg (by omega)]

/-- Witness of C4: an anchor with two genotype codes of which one is valid
('0' and '/'), paired with itself under the counting accumulator: `n = 1` is
exactly half of `L = 2` and the pair is excluded. -/
theorem coverage_filter_strict_witness :
    addSamples countingNuclCov [48, 47] [48, 47] (countingNuclCov.new [48, 49, 50, 51])
        (sampleKeys none { Chrom := "1", Pos := 100, Ref := "A", Alt := "C", GTs := [48, 47] })
        = .ok (1, 1)
      ∧ computeOne exactOps countingNuclCov none
          { Chrom := "1", Pos := 100, Ref := "A", Alt := "C", GTs := [48, 47] }
          { Chrom := "1", Pos := 100, Ref := "A", Alt := "C", GTs := [48, 47] }
          { p2arr := [0], p2counts := [0] }
        = .ok { p2arr := [0], p2counts := [0] } :=
  ⟨rfl, (coverage_filter_strict exactOps countingNuclCov none
      { Chrom := "1", Pos := 100, Ref := "A", Alt := "C", GTs := [48, 47] }
      { Chrom := "1", Pos := 100, Ref := "A", Alt := "C", GTs := [48, 47] }
      { p2arr := [0], p2counts := [0] } (1, 1) rfl).2.2 (by decide)⟩

/-! ### The biallelic filter -/

theorem recordOfTerms_some (terms : List String) (r : VCFRecord)
    (h : recordOfTerms terms = .ok (some r)) :
    term terms 3 = .ok r.Ref ∧ term terms 4 = .ok r.Alt ∧ len r.Ref = 1 ∧ len r.Alt = 1 := by
  unfold recordOfTerms at h
  cases h0 : term terms 0 with
  | error e => simp [h0] at h
  | ok chrom =>
    cases h1 : term terms 1 with
    | error e => simp [h0, h1] at h
    | ok posText =>
      cases h2 : atoi posText with
      | error e => simp [h0, h1, h2] at h
      | ok pos =>
        cases h3 : term terms 3 with
        | error e => simp [h0, h1, h2, h3] at h
        | ok ref =>
          cases h4 : term terms 4 with
          | error e => simp [h0, h1, h2, h3, h4] at h
          | ok alt =>
            simp only [h0, h1, h2, h3, h4] at h
            by_cases hlen : len alt = 1 ∧ len ref = 1
            · rw [if_pos hlen] at h
              have hr := Option.some.inj (Except.ok.inj h)
              subst hr
              exact ⟨rfl, rfl, hlen.2, hlen.1⟩
            · rw [if_neg hlen] at h
              simp at h

theorem parseLine_reference_AT (line : String) (h : term (termsOf line) 3 = .ok "AT")
    (r : VCFRecord) : parseLine line ≠ .ok (some r) := by
  intro hr
  have := recordOfTerms_some (termsOf line) r hr
  rw [h] at this
  have h1 : r.Ref = "AT" := (Except.ok.inj this.1).symm
  have h2 := this.2.2.1
  rw [h1] at h2
  exact absurd h2 (by decide)

theorem readVCFLines_mem (lines : List String) (r : VCFRecord)
    (h : r ∈ (readVCFLines lines).1) :
    ∃ line ∈ lines, isComment line = false ∧ parseLine line = .ok (some r) := by
  induction lines with
  | nil => simp [readVCFLines] at h
  | cons line rest ih =>
    unfold readVCFLines at h
    by_cases hc : isComment line = true
    · rw [if_pos hc] at h
      obtain ⟨l, hl, hl2⟩ := ih h
      exact ⟨l, List.mem_cons_of_mem _ hl, hl2⟩
    · rw [if_neg hc] at h
      cases hp : parseLine line with
      | error e => simp [hp] at h
      | ok o =>
        cases o with
        | none =>
          simp only [hp] at h
          obtain ⟨l, hl, hl2⟩ := ih h
          exact ⟨l, List.mem_cons_of_mem _ hl, hl2⟩
        | some r1 =>
          simp only [hp, List.mem_cons] at h
          rcases h with h | h
          · subst h
            exact ⟨line, List.mem_cons_self _ _, by simpa using hc, hp⟩
          · obtain ⟨l, hl, hl2⟩ := ih h
            exact ⟨l, List.mem_cons_of_mem _ hl, hl2⟩

/-- C5 (biallelic filter): every record the record stream emits for a file
comes from a non-comment line of the file whose reference column (column 3)
and alternate column (column 4) both have length exactly 1, and carries these
two columns; so a line whose reference is `AT`, or whose reference or
alternate has any other length, yields no record. -/
theorem biallelic_filter (content : String) (r : VCFRecord)
    (h : r ∈ (readVCF content).1) :
    ∃ line ∈ readLines [] content.data, isComment line = false
      ∧ parseLine line = .ok (some r)
      ∧ term (termsOf line) 3 = .ok r.Ref ∧ term (termsOf line) 4 = .ok r.Alt
      ∧ len r.Ref = 1 ∧ len r.Alt = 1 ∧ r.Ref ≠ "AT" := by
  obtain ⟨line, hmem, hc, hp⟩ := readVCFLines_mem _ r h
  have hcols := recordOfTerms_some (termsOf line) r hp
  refine ⟨line, hmem, hc, hp, hcols.1, hcols.2.1, hcols.2.2.1, hcols.2.2.2, ?_⟩
  intro hAT
  have h2 := hcols.2.2.1
  rw [hAT] at h2
  exact absurd h2 (by decide)

/-- Witness of C5: of a file with a line of reference `AT` and a line of
reference `A`, alternate `C`, only the second line yields a record. -/
theorem biallelic_filter_witness :
    (readVCF "1\t90\t.\tAT\tC\t.\t.\t.\tGT\t0|0\n1\t100\t.\tA\tC\t.\t.\t.\tGT\t0|0\n").1
        = [site "1" 100]
      ∧ ∃ line ∈ readLines []
            "1\t90\t.\tAT\tC\t.\t.\t.\tGT\t0|0\n1\t100\t.\tA\tC\t.\t.\t.\tGT\t0|0\n".data,
          isComment line = false ∧ parseLine line = .ok (some (site "1" 100))
            ∧ term (termsOf line) 3 = .ok (site "1" 100).Ref
            ∧ term (termsOf line) 4 = .ok (site "1" 100).Alt
            ∧ len (site "1" 100).Ref = 1 ∧ len (site "1" 100).Alt = 1
            ∧ (site "1" 100).Ref ≠ "AT" :=
  ⟨rfl, biallelic_filter
      "1\t90\t.\tAT\tC\t.\t.\t.\tGT\t0|0\n1\t100\t.\tA\tC\t.\t.\t.\tGT\t0|0\n"
      (site "1" 100) (by decide)⟩

/-! ### The frame of one pair fold -/

theorem foldIn_frame {F : Type} (ops : FloatOps F) (acc acc1 : Acc F) (lag : Int) (xy : F)
    (n : Int) (h : foldIn ops acc lag xy n = .ok acc1) :
    acc1.p2arr.length = acc.p2arr.length ∧ acc1.p2counts.length = acc.p2counts.length
      ∧ ∀ i : Int, i ≠ lag →
          index acc1.p2arr i = index acc.p2arr i
            ∧ index acc1.p2counts i = index acc.p2counts i := by
  unfold foldIn at h
  cases hv : index acc.p2arr lag with
  | error e => simp [hv] at h
  | ok v =>
    cases hc : index acc.p2counts lag with
    | error e => simp [hv, hc] at h
    | ok c =>
      simp only [hv, hc] at h
      have hacc := Except.ok.inj h
      subst hacc
      have hlag : 0 ≤ lag := ((index_eq_ok_iff _ _ _).mp hv).1
      refine ⟨by simp, by simp, ?_⟩
      intro i hi
      exact ⟨index_set_other _ i lag _ hlag hi, index_set_other _ i lag _ hlag hi⟩

theorem foldIn_at_lag {F : Type} (ops : FloatOps F) (acc : Acc F) (lag : Int) (xy : F)
    (n : Int) (v : F) (c : Int) (hv : index acc.p2arr lag = .ok v)
    (hc : index acc.p2counts lag = .ok c) :
    ∃ acc1, foldIn ops acc lag xy n = .ok acc1
      ∧ index acc1.p2arr lag = .ok (ops.add v (ops.div xy (ops.ofInt n)))
      ∧ index acc1.p2counts lag = .ok (wrapInt (c + 1)) := by
  refine ⟨{ p2arr := acc.p2arr.set lag.toNat (ops.add v (ops.div xy (ops.ofInt n))),
             p2counts := acc.p2counts.set lag.toNat (wrapInt (c + 1)) }, ?_, ?_, ?_⟩
  · simp only [foldIn, hv, hc]
  · exact index_set_self _ lag v _ hv
  · exact index_set_self _ lag c _ hc

/-- C10 (frame of one pair fold): when `compute` processes one buffered record
`other` against the anchor, with `lag = other.Pos - anchor.Pos` and `(xy, n)`
the accumulator's answer (the sample loop having run without a panic):
(a) if the pair fails the coverage filter, the step returns both arrays
unchanged; (b) if it passes and `lag` indexes both arrays, the step returns,
`p2arr[lag]` has become `p2arr[lag] + xy / float64(n)` and `p2counts[lag]` has
become `p2counts[lag] + 1` (as an `int64`; exactly `+ 1` below the largest
`int64`); (c) whenever the step returns, both arrays keep their lengths and
every entry at an index other than `lag` is unchanged. -/
theorem compute_pair_frame {F : Type} (ops : FloatOps F) (nc : NuclCov F)
    (indexMap : Option (List Int)) (anchor other : VCFRecord) (acc : Acc F) (st : nc.State)
    (hst : addSamples nc anchor.GTs other.GTs (nc.new [48, 49, 50, 51])
      (sampleKeys indexMap anchor) = .ok st) :
    (¬ (nc.p11 st 0).2 > ((anchor.GTs.length / 2 : Nat) : Int)
        → computeOne ops nc indexMap anchor other acc = .ok acc)
      ∧ (∀ (v : F) (c : Int), (nc.p11 st 0).2 > ((anchor.GTs.length / 2 : Nat) : Int)
          → index acc.p2arr (subInt other.Pos anchor.Pos) = .ok v
          → index acc.p2counts (subInt other.Pos anchor.Pos) = .ok c
          → ∃ acc1, computeOne ops nc indexMap anchor other acc = .ok acc1
              ∧ index acc1.p2arr (subInt other.Pos anchor.Pos)
                  = .ok (ops.add v (ops.div (nc.p11 st 0).1 (ops.ofInt (nc.p11 st 0).2)))
              ∧ index acc1.p2counts (subInt other.Pos anchor.Pos) = .ok (wrapInt (c + 1))
              ∧ (0 ≤ c → c + 1 < 2 ^ 63
                  → index acc1.p2counts (subInt other.Pos anchor.Pos) = .ok (c + 1)))
      ∧ (∀ acc1, computeOne ops nc indexMap anchor other acc = .ok acc1
          → acc1.p2arr.length = acc.p2arr.length
            ∧ acc1.p2counts.length = acc.p2counts.length
            ∧ ∀ i : Int, i ≠ subInt other.Pos anchor.Pos →
                index acc1.p2arr i = index acc.p2arr i
                  ∧ index acc1.p2counts i = index acc.p2counts i) := by
  have key : computeOne ops nc indexMap anchor other acc
      = foldPair ops acc (subInt other.Pos anchor.Pos) (nc.p11 st 0).1 (nc.p11 st 0).2
          anchor.GTs.length := by
    unfold computeOne
    rw [hst]
  refine ⟨?_, ?_, ?_⟩
  · intro hfail
    rw [key, foldPair, if_neg hfail]
  · intro v c hpass hv hc
    obtain ⟨acc1, h1, h2, h3⟩ :=
      foldIn_at_lag ops acc (subInt other.Pos anchor.Pos) (nc.p11 st 0).1 (nc.p11 st 0).2 v c hv hc
    refine ⟨acc1, ?_, h2, h3, ?_⟩
    · rw [key, foldPair, if_pos hpass, h1]
    · intro h0 hlt
      rw [h3, wrapInt_of_range (c + 1) (by omega) hlt]
  · intro acc1 h
    rw [key, foldPair] at h
    by_cases hpass : (nc.p11 st 0).2 > ((anchor.GTs.length / 2 : Nat) : Int)
    · rw [if_pos hpass] at h
      exact foldIn_frame ops acc acc1 _ _ _ h
    · rw [if_neg hpass] at h
      have := Except.ok.inj h
      subst this
      exact ⟨rfl, rfl, fun _ _ => ⟨rfl, rfl⟩⟩

set_option maxRecDepth 20000 in
/-- Witness of C10: the sites at 100 and 150 (one sample `0|0`, four codes)
under the counting accumulator, on arrays of length 300: `n = 4` passes the
filter, the step returns, the count at lag 50 goes from 0 to 1 and the count
at lag 0 keeps its value. -/
theorem compute_pair_frame_witness :
    addSamples countingNuclCov (site "1" 100).GTs (site "1" 150).GTs
        (countingNuclCov.new [48, 49, 50, 51]) (sampleKeys none (site "1" 100)) = .ok (4, 4)
      ∧ ∃ acc1, computeOne exactOps countingNuclCov none (site "1" 100) (site "1" 150)
            { p2arr := List.replicate 300 0, p2counts := List.replicate 300 0 } = .ok acc1
          ∧ index acc1.p2counts 50 = .ok 1 ∧ index acc1.p2counts 0 = .ok 0 := by
  have h := compute_pair_frame exactOps countingNuclCov none (site "1" 100) (site "1" 150)
    { p2arr := List.replicate 300 0, p2counts := List.replicate 300 0 } (4, 4) rfl
  obtain ⟨acc1, h1, _, _, h4⟩ := h.2.1 0 0 (by decide) rfl rfl
  refine ⟨rfl, acc1, h1, h4 (by decide) (by decide), ?_⟩
  have hframe := (h.2.2 acc1 h1).2.2 0 (by decide)
  rw [hframe.2]
  rfl

/-! ### The end-to-end scenario -/

theorem outputLoop_rows {F : Type} (ops : FloatOps F) (acc : Acc F) (s0 : F) (c0 : Int)
    (h0 : index acc.p2arr 0 = .ok s0) (hc0 : index acc.p2counts 0 = .ok c0) (ks : List Nat)
    (hks : ∀ k ∈ ks, k < acc.p2arr.length ∧ k < acc.p2counts.length) :
    ∃ rows, outputLoop ops acc ks = .ok rows
      ∧ rows.map rowKey = ks.filterMap (fun k =>
          match acc.p2counts[k]? with
          | some n =>
            if n > 0 then some ((k, n, if k = 0 then "Ks" else "P2") : Nat × Int × String)
            else none
          | none => none) := by
  induction ks with
  | nil => exact ⟨[], rfl, rfl⟩
  | cons k ks ih =>
    obtain ⟨rows, hrows, hmap⟩ := ih (fun j hj => hks j (List.mem_cons_of_mem _ hj))
    obtain ⟨hk1, hk2⟩ := hks k (List.mem_cons_self _ _)
    have hn : index acc.p2counts (k : Int) = .ok (acc.p2counts[k]) := by
      rw [index_eq_ok_iff]
      exact ⟨by omega, by simp [hk2]⟩
    have hs : index acc.p2arr (k : Int) = .ok (acc.p2arr[k]) := by
      rw [index_eq_ok_iff]
      exact ⟨by omega, by simp [hk1]⟩
    have hget : acc.p2counts[k]? = some (acc.p2counts[k]) := by simp [hk2]
    by_cases hpos : acc.p2counts[k] > 0
    · refine ⟨{ l := k, m := if k = 0 then ops.div s0 (ops.ofInt c0)
                                  else ops.div acc.p2arr[k] s0,
                n := acc.p2counts[k], t := if k = 0 then "Ks" else "P2" } :: rows, ?_, ?_⟩
      · simp only [outputLoop, hn, h0, hc0, hs, hrows, if_pos hpos]
      · simp only [List.map_cons, List.filterMap_cons, hget, if_pos hpos, hmap, rowKey]
    · refine ⟨rows, ?_, ?_⟩
      · simp only [outputLoop, hn, h0, hc0, hs, hrows, if_neg hpos]
      · simp only [List.filterMap_cons, hget, if_neg hpos, hmap]

theorem rangeLoop_append {α : Type} (cfg : Config) (f : List VCFRecord → α → Except Err α)
    (st : LoopState α) (r : VCFRecord) (tl : List VCFRecord)
    (hregion : ¬ (r.Pos < cfg.regionStart ∨ r.Pos > cfg.regionEnd))
    (hchrom : ¬ (cfg.chrom ≠ "" ∧ cfg.chrom ≠ r.Chrom))
    (happ : canAppend cfg st r = true) :
    rangeLoop cfg f st (r :: tl)
      = rangeLoop cfg f { st with buffer := st.buffer ++ [r] } tl := by
  simp only [rangeLoop, loopBody, if_neg hregion, if_neg hchrom, happ, if_true]

theorem rangeLoop_skip {α : Type} (cfg : Config) (f : List VCFRecord → α → Except Err α)
    (st : LoopState α) (r : VCFRecord) (tl : List VCFRecord)
    (hregion : ¬ (r.Pos < cfg.regionStart ∨ r.Pos > cfg.regionEnd))
    (hchrom : cfg.chrom ≠ "" ∧ cfg.chrom ≠ r.Chrom) :
    rangeLoop cfg f st (r :: tl) = rangeLoop cfg f st tl := by
  simp only [rangeLoop, loopBody, if_neg hregion, if_pos hchrom]

theorem rangeLoop_dispatch {α : Type} (cfg : Config) (f : List VCFRecord → α → Except Err α)
    (st : LoopState α) (r : VCFRecord) (tl : List VCFRecord) (b0 : VCFRecord)
    (rest : List VCFRecord) (acc1 : α)
    (hregion : ¬ (r.Pos < cfg.regionStart ∨ r.Pos > cfg.regionEnd))
    (hchrom : ¬ (cfg.chrom ≠ "" ∧ cfg.chrom ≠ r.Chrom))
    (happ : canAppend cfg st r = false) (hbuf : st.buffer = b0 :: rest)
    (hf : f st.buffer st.acc = .ok acc1) :
    rangeLoop cfg f st (r :: tl)
      = rangeLoop cfg f { st with buffer := rest, acc := acc1 } tl := by
  simp only [rangeLoop, loopBody, if_neg hregion, if_neg hchrom, happ, hf]
  rw [hbuf]
  simp

theorem rangeLoop_dispatch_error {α : Type} (cfg : Config)
    (f : List VCFRecord → α → Except Err α) (st : LoopState α) (r : VCFRecord)
    (tl : List VCFRecord) (e : Err)
    (hregion : ¬ (r.Pos < cfg.regionStart ∨ r.Pos > cfg.regionEnd))
    (hchrom : ¬ (cfg.chrom ≠ "" ∧ cfg.chrom ≠ r.Chrom))
    (happ : canAppend cfg st r = false) (hf : f st.buffer st.acc = .error e) :
    rangeLoop cfg f st (r :: tl) = .error e := by
  simp only [rangeLoop, loopBody, if_neg hregion, if_neg hchrom, happ, hf]
  simp

theorem windowRun_scenario {α : Type} (f : List VCFRecord → α → Except Err α) (init : α) :
    windowRun scenarioConfig f init [site "1" 100, site "1" 150, site "1" 600, site "2" 100]
      = (match f [site "1" 100, site "1" 150] init with
         | .error e => .error e
         | .ok a1 =>
           match f [site "1" 150] a1 with
           | .error e => .error e
           | .ok a2 => .ok ([site "1" 150], a2)) := by
  unfold windowRun
  rw [rangeLoop_append scenarioConfig f { buffer := [], currentChromo := "", acc := init }
    (site "1" 100) _ (by decide) (by decide) rfl]
  rw [rangeLoop_append scenarioConfig f
    { buffer := [] ++ [site "1" 100], currentChromo := "", acc := init }
    (site "1" 150) _ (by decide) (by decide) rfl]
  cases h1 : f [site "1" 100, site "1" 150] init with
  | error e =>
    rw [rangeLoop_dispatch_error scenarioConfig f
      { buffer := [] ++ [site "1" 100] ++ [site "1" 150], currentChromo := "", acc := init }
      (site "1" 600) _ e (by decide) (by decide) rfl h1]
  | ok a1 =>
    rw [rangeLoop_dispatch scenarioConfig f
      { buffer := [] ++ [site "1" 100] ++ [site "1" 150], currentChromo := "", acc := init }
      (site "1" 600) _ (site "1" 100) [site "1" 150] a1 (by decide) (by decide) rfl rfl h1]
    rw [rangeLoop_skip scenarioConfig f _ (site "2" 100) _ (by decide) (by decide)]
    rfl

theorem index_zero_of_pos {α : Type} (xs : List α) (h : 0 < xs.length) :
    ∃ v, index xs 0 = .ok v := by
  cases xs with
  | nil => simp at h
  | cons x xs => exact ⟨x, by simp [index]⟩

theorem computeOne_site {F : Type} (ops : FloatOps F) (nc : NuclCov F)
    (hpass : 2 < (nc.p11 (fourReferencePairs nc) 0).2) (c1 c2 : String) (p q : Int)
    (acc : Acc F) :
    computeOne ops nc none (site c1 p) (site c2 q) acc
      = foldIn ops acc (subInt q p) (nc.p11 (fourReferencePairs nc) 0).1
          (nc.p11 (fourReferencePairs nc) 0).2 := by
  have h1 : (site c1 p).GTs = [48, 48, 48, 48] := by rfl
  have h2 : (site c2 q).GTs = [48, 48, 48, 48] := by rfl
  have h3 : sampleKeys none (site c1 p) = [0, 1, 2, 3] := by
    simp only [sampleKeys, h1]
    rfl
  have hst : addSamples nc (site c1 p).GTs (site c2 q).GTs (nc.new [48, 49, 50, 51])
      (sampleKeys none (site c1 p)) = .ok (fourReferencePairs nc) := by
    rw [h1, h2, h3]
    simp only [addSamples]
    rfl
  have hL : (((site c1 p).GTs.length / 2 : Nat) : Int) = 2 := by
    rw [h1]
    rfl
  unfold computeOne
  rw [hst]
  simp only [foldPair]
  rw [hL, if_pos hpass]
  rfl

set_option maxRecDepth 20000 in
/-- C6 (end-to-end scenario), evaluated: on the two-chromosome file whose
chromosome 1 has sites at 100, 150 and 600 (one sample, homozygous reference),
run with `--chrom 1` and `max_lag = 300`, for every accumulator under which
these pairs pass the coverage filter, the run ends with `p2counts[0] = 2`
(not 3) and `p2counts[50] = 1`; the output rows are lag 0 labelled `Ks` with
count 2 and lag 50 labelled `P2` with count 1, and no other row (none for lag
500). The self-pair of the site at 600 is never computed. -/
theorem end_to_end_scenario {F : Type} (ops : FloatOps F) (nc : NuclCov F)
    (hpass : 2 < (nc.p11 (fourReferencePairs nc) 0).2) :
    readVCF scenarioFile
        = ([site "1" 100, site "1" 150, site "1" 600, site "2" 100], none)
      ∧ ∃ acc rows, mainRun ops nc none scenarioConfig (readVCF scenarioFile).1 = .ok acc
          ∧ index acc.p2counts 0 = .ok 2 ∧ index acc.p2counts 50 = .ok 1
          ∧ outputRows ops acc = .ok rows
          ∧ rows.map rowKey = [(0, 2, "Ks"), (50, 1, "P2")] := by
  have hfile : readVCF scenarioFile
      = ([site "1" 100, site "1" 150, site "1" 600, site "2" 100], none) := by rfl
  refine ⟨hfile, ?_⟩
  have hc1 : compute ops nc none [site "1" 100, site "1" 150]
      { p2arr := List.replicate 300 ops.zero, p2counts := List.replicate 300 0 }
      = .ok { p2arr := ((List.replicate 300 ops.zero).set 0
                  (ops.add ops.zero (ops.div (nc.p11 (fourReferencePairs nc) 0).1
                    (ops.ofInt (nc.p11 (fourReferencePairs nc) 0).2)))).set 50
                  (ops.add ops.zero (ops.div (nc.p11 (fourReferencePairs nc) 0).1
                    (ops.ofInt (nc.p11 (fourReferencePairs nc) 0).2))),
              p2counts := ((List.replicate 300 0).set 0 1).set 50 1 } := by
    simp only [compute, computeLoop, computeOne_site ops nc hpass]
    rfl
  have hc2 : compute ops nc none [site "1" 150]
      { p2arr := ((List.replicate 300 ops.zero).set 0
                  (ops.add ops.zero (ops.div (nc.p11 (fourReferencePairs nc) 0).1
                    (ops.ofInt (nc.p11 (fourReferencePairs nc) 0).2)))).set 50
                  (ops.add ops.zero (ops.div (nc.p11 (fourReferencePairs nc) 0).1
                    (ops.ofInt (nc.p11 (fourReferencePairs nc) 0).2))),
        p2counts := ((List.replicate 300 0).set 0 1).set 50 1 }
      = .ok { p2arr := (((List.replicate 300 ops.zero).set 0
                  (ops.add ops.zero (ops.div (nc.p11 (fourReferencePairs nc) 0).1
                    (ops.ofInt (nc.p11 (fourReferencePairs nc) 0).2)))).set 50
                  (ops.add ops.zero (ops.div (nc.p11 (fourReferencePairs nc) 0).1
                    (ops.ofInt (nc.p11 (fourReferencePairs nc) 0).2)))).set 0
                  (ops.add (ops.add ops.zero (ops.div (nc.p11 (fourReferencePairs nc) 0).1
                    (ops.ofInt (nc.p11 (fourReferencePairs nc) 0).2)))
                    (ops.div (nc.p11 (fourReferencePairs nc) 0).1
                      (ops.ofInt (nc.p11 (fourReferencePairs nc) 0).2))),
              p2counts := (((List.replicate 300 0).set 0 1).set 50 1).set 0 2 } := by
    simp only [compute, computeLoop, computeOne_site ops nc hpass]
    rfl
  have hrun : mainRun ops nc none scenarioConfig (readVCF scenarioFile).1
      = .ok { p2arr := (((List.replicate 300 ops.zero).set 0
                  (ops.add ops.zero (ops.div (nc.p11 (fourReferencePairs nc) 0).1
                    (ops.ofInt (nc.p11 (fourReferencePairs nc) 0).2)))).set 50
                  (ops.add ops.zero (ops.div (nc.p11 (fourReferencePairs nc) 0).1
                    (ops.ofInt (nc.p11 (fourReferencePairs nc) 0).2)))).set 0
                  (ops.add (ops.add ops.zero (ops.div (nc.p11 (fourReferencePairs nc) 0).1
                    (ops.ofInt (nc.p11 (fourReferencePairs nc) 0).2)))
                    (ops.div (nc.p11 (fourReferencePairs nc) 0).1
                      (ops.ofInt (nc.p11 (fourReferencePairs nc) 0).2))),
              p2counts := (((List.replicate 300 0).set 0 1).set 50 1).set 0 2 } := by
    rw [hfile]
    unfold mainRun
    rw [if_neg (by decide), windowRun_scenario]
    have h300 : scenarioConfig.maxl.toNat = 300 := rfl
    rw [h300, hc1]
    simp only
    rw [hc2]
  have hA : ∃ A : List F, A.length = 300 ∧ (∃ s0, index A 0 = .ok s0)
      ∧ mainRun ops nc none scenarioConfig (readVCF scenarioFile).1
          = .ok { p2arr := A, p2counts := (((List.replicate 300 0).set 0 1).set 50 1).set 0 2 } :=
    ⟨_, by simp only [List.length_set, List.length_replicate],
      index_zero_of_pos _ (by simp only [List.length_set, List.length_replicate]; decide), hrun⟩
  obtain ⟨A, hlen, ⟨s0, hs0⟩, hrunA⟩ := hA
  obtain ⟨rows, hrows, hmap⟩ := outputLoop_rows ops
    { p2arr := A, p2counts := (((List.replicate 300 0).set 0 1).set 50 1).set 0 2 } s0 2 hs0 rfl
    (List.range 300)
    (by
      intro k hk
      simp only [List.length_set, List.length_replicate, hlen]
      exact ⟨List.mem_range.mp hk, List.mem_range.mp hk⟩)
  refine ⟨_, rows, hrunA, rfl, rfl, ?_, ?_⟩
  · unfold outputRows
    simp only [hlen]
    exact hrows
  · rw [hmap]
    rfl

/-- Witness of C6: the counting accumulator reports `n = 4 > 2` for a site's
four reference codes. -/
theorem end_to_end_scenario_witness :
    2 < (countingNuclCov.p11 (fourReferencePairs countingNuclCov) 0).2
      ∧ ∃ acc rows, mainRun exactOps countingNuclCov none scenarioConfig
            (readVCF scenarioFile).1 = .ok acc
          ∧ index acc.p2counts 0 = .ok 2 ∧ index acc.p2counts 50 = .ok 1
          ∧ outputRows exactOps acc = .ok rows
          ∧ rows.map rowKey = [(0, 2, "Ks"), (50, 1, "P2")] :=
  ⟨by decide, (end_to_end_scenario exactOps countingNuclCov (by decide)).2⟩

/-! ### Lengths of genotype vectors -/

theorem allele_char_facts (a : Char) (h : isAlleleChar a = true) :
    a ≠ '/' ∧ a ≠ '|' ∧ byteOf a ≠ 0 ∧ byteOf a = a.toNat := by
  have h1 : (48 ≤ a.toNat ∧ a.toNat ≤ 57) ∨ a.toNat = 46 := by
    simpa [isAlleleChar] using h
  refine ⟨?_, ?_, ?_, ?_⟩
  · intro e
    rw [e] at h1
    revert h1
    decide
  · intro e
    rw [e] at h1
    revert h1
    decide
  · unfold byteOf
    omega
  · unfold byteOf
    omega

theorem allele_byte_ne (a b : Char) (ha : isAlleleChar a = true) (hb : isAlleleChar b = true)
    (hab : a ≠ b) : byteOf a ≠ byteOf b := by
  rw [(allele_char_facts a ha).2.2.2, (allele_char_facts b hb).2.2.2]
  intro h
  exact hab (Char.ext (UInt32.toNat.inj h))

theorem tokenCodes_length_of_kind (t : String) (k : CallKind) (h : callKind t = some k) :
    (tokenCodes t).length = codesPerCall k := by
  unfold callKind at h
  rcases ht : t.data with _ | ⟨a, _ | ⟨sep, _ | ⟨b, _ | ⟨c, rest⟩⟩⟩⟩
  · simp [ht] at h
  · simp [ht] at h
  · simp [ht] at h
  · simp only [ht] at h
    by_cases hab : isAlleleChar a = true ∧ isAlleleChar b = true
    · rw [if_pos hab] at h
      obtain ⟨ha1, ha2, ha3, _⟩ := allele_char_facts a hab.1
      obtain ⟨hb1, hb2, hb3, _⟩ := allele_char_facts b hab.2
      by_cases hbar : sep = '|'
      · rw [if_pos hbar] at h
        have hk := Option.some.inj h
        subst hk
        subst hbar
        simp [tokenCodes, branchCodes, ht, isPhased, appendNonBar, ha1, ha2, hb1, hb2,
          codesPerCall]
      · rw [if_neg hbar] at h
        by_cases hslash : sep = '/'
        · rw [if_pos hslash] at h
          subst hslash
          by_cases heq : a = b
          · rw [if_pos heq] at h
            have hk := Option.some.inj h
            subst hk
            subst heq
            simp [tokenCodes, branchCodes, ht, isPhased, appendNonBar, unphasedCurrent,
              ha1, ha2, ha3, codesPerCall]
          · rw [if_neg heq] at h
            have hk := Option.some.inj h
            subst hk
            have hne := allele_byte_ne a b hab.1 hab.2 heq
            simp [tokenCodes, branchCodes, ht, isPhased, appendNonBar, unphasedCurrent,
              ha1, ha2, ha3, hb1, hb2, hne, codesPerCall]
        · rw [if_neg hslash] at h
          simp at h
    · rw [if_neg hab] at h
      simp at h
  · simp [ht] at h

theorem callKind_ne_GT (t : String) (h : callKind t ≠ none) : t ≠ "GT" := by
  intro e
  subst e
  exact h (by decide)

theorem decodeTerms_samples (samples : List String) (gts : List Nat)
    (h : ∀ t ∈ samples, t ≠ "GT") :
    decodeTerms true gts samples = gts ++ (samples.map tokenCodes).flatten := by
  induction samples generalizing gts with
  | nil => simp [decodeTerms]
  | cons t rest ih =>
    have ht : t ≠ "GT" := h t (List.mem_cons_self _ _)
    simp only [decodeTerms, if_neg ht, if_true, List.map_cons, List.flatten_cons]
    rw [ih _ (fun u hu => h u (List.mem_cons_of_mem _ hu)), List.append_assoc]

theorem decodeTerms_before_GT (pre rest : List String) (gts : List Nat) (h : "GT" ∉ pre) :
    decodeTerms false gts (pre ++ "GT" :: rest) = decodeTerms true gts rest := by
  induction pre with
  | nil => simp [decodeTerms]
  | cons t pre ih =>
    have ht : t ≠ "GT" := fun e => h (by simp [e])
    have hpre : "GT" ∉ pre := fun hm => h (List.mem_cons_of_mem _ hm)
    simp only [List.cons_append, decodeTerms, if_neg ht, Bool.false_eq_true, if_false]
    exact ih hpre

theorem recordOfTerms_GTs (terms : List String) (r : VCFRecord)
    (h : recordOfTerms terms = .ok (some r)) : r.GTs = decodeTerms false [] terms := by
  unfold recordOfTerms at h
  cases h0 : term terms 0 with
  | error e => simp [h0] at h
  | ok chrom =>
    cases h1 : term terms 1 with
    | error e => simp [h0, h1] at h
    | ok posText =>
      cases h2 : atoi posText with
      | error e => simp [h0, h1, h2] at h
      | ok pos =>
        cases h3 : term terms 3 with
        | error e => simp [h0, h1, h2, h3] at h
        | ok ref =>
          cases h4 : term terms 4 with
          | error e => simp [h0, h1, h2, h3, h4] at h
          | ok alt =>
            simp only [h0, h1, h2, h3, h4] at h
            by_cases hlen : len alt = 1 ∧ len ref = 1
            · rw [if_pos hlen] at h
              have hr := Option.some.inj (Except.ok.inj h)
              subst hr
              rfl
            · rw [if_neg hlen] at h
              simp at h

theorem line_GTs (line : String) (pre samples : List String) (r : VCFRecord)
    (hp : parseLine line = .ok (some r)) (ht : termsOf line = pre ++ "GT" :: samples)
    (hpre : "GT" ∉ pre) (hs : ∀ t ∈ samples, callKind t ≠ none) :
    r.GTs = (samples.map tokenCodes).flatten := by
  have h := recordOfTerms_GTs (termsOf line) r hp
  rw [h, ht, decodeTerms_before_GT pre samples [] hpre,
    decodeTerms_samples samples [] (fun t hm => callKind_ne_GT t (hs t hm))]
  simp

theorem same_kinds_lengths (samplesA samplesB : List String)
    (hkinds : List.Forall₂ (fun x y => callKind x ≠ none ∧ callKind x = callKind y)
      samplesA samplesB) :
    samplesA.map (fun t => (tokenCodes t).length)
      = samplesB.map (fun t => (tokenCodes t).length) := by
  induction hkinds with
  | nil => rfl
  | @cons x y xs ys hxy _ ih =>
    obtain ⟨hx, hxy⟩ := hxy
    cases hk : callKind x with
    | none => exact absurd hk hx
    | some k =>
      simp only [List.map_cons, ih]
      rw [tokenCodes_length_of_kind x k hk, tokenCodes_length_of_kind y k (hxy ▸ hk)]

theorem same_kinds_left (samplesA samplesB : List String)
    (hkinds : List.Forall₂ (fun x y => callKind x ≠ none ∧ callKind x = callKind y)
      samplesA samplesB) : ∀ t ∈ samplesA, callKind t ≠ none := by
  induction hkinds with
  | nil => intro t ht; simp at ht
  | @cons x y xs ys hxy _ ih =>
    intro t ht
    rcases List.mem_cons.mp ht with h | h
    · rw [h]; exact hxy.1
    · exact ih t h

theorem same_kinds_right (samplesA samplesB : List String)
    (hkinds : List.Forall₂ (fun x y => callKind x ≠ none ∧ callKind x = callKind y)
      samplesA samplesB) : ∀ t ∈ samplesB, callKind t ≠ none := by
  induction hkinds with
  | nil => intro t ht; simp at ht
  | @cons x y xs ys hxy _ ih =>
    intro t ht
    rcases List.mem_cons.mp ht with h | h
    · rw [h, ← hxy.2]; exact hxy.1
    · exact ih t h

theorem flatten_codes_length (samples : List String) :
    ((samples.map tokenCodes).flatten).length
      = (samples.map (fun t => (tokenCodes t).length)).sum := by
  induction samples with
  | nil => rfl
  | cons t rest ih => simp [ih]

/-- C9 (genotype vector length), the claim as stated fails: two qualifying
lines with one sample column each, both two-allele calls, `0/1` and `1/1`,
yield genotype vectors of lengths 3 and 4. -/
theorem genotype_lengths_differ :
    parseLine "1\t100\t.\tA\tC\t.\t.\t.\tGT\t0/1\n"
        = .ok (some { Chrom := "1", Pos := 100, Ref := "A", Alt := "C",
                      GTs := [byteOf '0', byteOf '/', byteOf '1'] })
      ∧ parseLine "1\t150\t.\tA\tC\t.\t.\t.\tGT\t1/1\n"
        = .ok (some { Chrom := "1", Pos := 150, Ref := "A", Alt := "C",
                      GTs := [byteOf '1', byteOf '1', byteOf '/', byteOf '1'] })
      ∧ termsOf "1\t100\t.\tA\tC\t.\t.\t.\tGT\t0/1\n"
        = ["1", "100", ".", "A", "C", ".", ".", "."] ++ "GT" :: ["0/1"]
      ∧ termsOf "1\t150\t.\tA\tC\t.\t.\t.\tGT\t1/1\n"
        = ["1", "150", ".", "A", "C", ".", ".", "."] ++ "GT" :: ["1/1"]
      ∧ callKind "0/1" = some .unphasedDiff ∧ callKind "1/1" = some .unphasedSame
      ∧ [byteOf '0', byteOf '/', byteOf '1'].length
          ≠ [byteOf '1', byteOf '1', byteOf '/', byteOf '1'].length :=
  ⟨rfl, rfl, by decide, by decide, by decide, by decide, by decide⟩

/-- C9 (genotype vector length), amended: for two qualifying lines whose
sample columns after the `GT` column are two-allele calls of single allele
characters, equal in number and of the same kind column by column (both
phased, both unphased with equal alleles, or both unphased with different
alleles), the genotype vectors are the concatenation of the columns' codes,
every column contributes the same number of codes in both records (so each
column's codes occupy the same index range), and the two vectors have the same
length. -/
theorem genotype_length_same_kinds (lineA lineB : String)
    (preA preB samplesA samplesB : List String) (ra rb : VCFRecord)
    (hA : parseLine lineA = .ok (some ra)) (hB : parseLine lineB = .ok (some rb))
    (htA : termsOf lineA = preA ++ "GT" :: samplesA)
    (htB : termsOf lineB = preB ++ "GT" :: samplesB)
    (hpreA : "GT" ∉ preA) (hpreB : "GT" ∉ preB)
    (hkinds : List.Forall₂ (fun x y => callKind x ≠ none ∧ callKind x = callKind y)
      samplesA samplesB) :
    ra.GTs = (samplesA.map tokenCodes).flatten
      ∧ rb.GTs = (samplesB.map tokenCodes).flatten
      ∧ samplesA.map (fun t => (tokenCodes t).length)
          = samplesB.map (fun t => (tokenCodes t).length)
      ∧ ra.GTs.length = rb.GTs.length := by
  have hsA := same_kinds_left samplesA samplesB hkinds
  have hsB := same_kinds_right samplesA samplesB hkinds
  have hgA := line_GTs lineA preA samplesA ra hA htA hpreA hsA
  have hgB := line_GTs lineB preB samplesB rb hB htB hpreB hsB
  have hmap := same_kinds_lengths samplesA samplesB hkinds
  refine ⟨hgA, hgB, hmap, ?_⟩
  rw [hgA, hgB, flatten_codes_length, flatten_codes_length, hmap]

/-- Witness of C9: the lines with sample columns `0/1`, `1|1` and `1/0`, `0|0`
agree in kind column by column; both genotype vectors have length 7. -/
theorem genotype_length_same_kinds_witness :
    parseLine "1\t100\t.\tA\tC\t.\t.\t.\tGT\t0/1\t1|1\n"
        = .ok (some { Chrom := "1", Pos := 100, Ref := "A", Alt := "C",
                      GTs := [48, 47, 49, 49, 49, 49, 49] })
      ∧ parseLine "1\t150\t.\tA\tC\t.\t.\t.\tGT\t1/0\t0|0\n"
        = .ok (some { Chrom := "1", Pos := 150, Ref := "A", Alt := "C",
                      GTs := [49, 47, 48, 48, 48, 48, 48] })
      ∧ [48, 47, 49, 49, 49, 49, 49].length = [49, 47, 48, 48, 48, 48, 48].length :=
  ⟨rfl, rfl,
    (genotype_length_same_kinds "1\t100\t.\tA\tC\t.\t.\t.\tGT\t0/1\t1|1\n"
      "1\t150\t.\tA\tC\t.\t.\t.\tGT\t1/0\t0|0\n"
      ["1", "100", ".", "A", "C", ".", ".", "."] ["1", "150", ".", "A", "C", ".", ".", "."]
      ["0/1", "1|1"] ["1/0", "0|0"]
      { Chrom := "1", Pos := 100, Ref := "A", Alt := "C", GTs := [48, 47, 49, 49, 49, 49, 49] }
      { Chrom := "1", Pos := 150, Ref := "A", Alt := "C", GTs := [49, 47, 48, 48, 48, 48, 48] }
      rfl rfl (by decide) (by decide) (by decide) (by decide)
      (List.Forall₂.cons ⟨by decide, by decide⟩
        (List.Forall₂.cons ⟨by decide, by decide⟩ List.Forall₂.nil))).2.2.2⟩


/-! ### The valid-code guard -/

theorem validPair_iff (a b : Nat) (ha : a < 256) (hb : b < 256) :
    validPair a b = true ↔ (48 ≤ a ∧ a ≤ 51) ∧ (48 ≤ b ∧ b ≤ 51) := by
  simp only [validPair, subByte, Bool.and_eq_true, decide_eq_true_eq]
  omega

/-- C18 (valid-code guard under byte wraparound): for all byte values `a` and
`b`, the guard `a-'0' >= 0 && a-'0' <= 3 && b-'0' >= 0 && b-'0' <= 3`,
evaluated with unsigned 8-bit subtraction, holds exactly when both `a` and `b`
are among the characters '0', '1', '2', '3'; for any other pair of codes the
sample loop leaves the accumulator as it was (no `Add`). -/
theorem valid_code_guard (a b : Nat) (ha : a < 256) (hb : b < 256) :
    (validPair a b = true ↔
        (a = byteOf '0' ∨ a = byteOf '1' ∨ a = byteOf '2' ∨ a = byteOf '3')
          ∧ (b = byteOf '0' ∨ b = byteOf '1' ∨ b = byteOf '2' ∨ b = byteOf '3'))
      ∧ ∀ {F : Type} (nc : NuclCov F) (anchor other : List Nat) (st : nc.State) (k : Int),
          index anchor k = .ok a → index other k = .ok b →
          ¬ ((a = byteOf '0' ∨ a = byteOf '1' ∨ a = byteOf '2' ∨ a = byteOf '3')
              ∧ (b = byteOf '0' ∨ b = byteOf '1' ∨ b = byteOf '2' ∨ b = byteOf '3')) →
          addSamples nc anchor other st [k] = .ok st := by
  have h0 : byteOf '0' = 48 := by decide
  have h1 : byteOf '1' = 49 := by decide
  have h2 : byteOf '2' = 50 := by decide
  have h3 : byteOf '3' = 51 := by decide
  have hiff : validPair a b = true ↔
      (a = byteOf '0' ∨ a = byteOf '1' ∨ a = byteOf '2' ∨ a = byteOf '3')
        ∧ (b = byteOf '0' ∨ b = byteOf '1' ∨ b = byteOf '2' ∨ b = byteOf '3') := by
    rw [validPair_iff a b ha hb, h0, h1, h2, h3]
    omega
  refine ⟨hiff, ?_⟩
  intro F nc anchor other st k hka hkb hnot
  have hfalse : validPair a b = false := by
    cases hv : validPair a b with
    | false => rfl
    | true => exact absurd (hiff.mp hv) hnot
  simp [addSamples, hka, hkb, hfalse]

/-- Witness of C18: the separator '/' at the anchor against '0': the guard is
false and the pair is not recorded. -/
theorem valid_code_guard_witness :
    validPair (byteOf '/') (byteOf '0') = false
      ∧ addSamples countingNuclCov [byteOf '/'] [byteOf '0'] (0, 0) [0] = .ok (0, 0) :=
  ⟨by decide,
    (valid_code_guard (byteOf '/') (byteOf '0') (by decide) (by decide)).2
      countingNuclCov [byteOf '/'] [byteOf '0'] (0, 0) 0 rfl rfl (by decide)⟩

/-! ### Region bounds -/

theorem inRegion_iff (cfg : Config) (r : VCFRecord) :
    inRegion cfg r = true ↔ cfg.regionStart ≤ r.Pos ∧ r.Pos ≤ cfg.regionEnd := by
  simp [inRegion]

theorem inRegion_false_iff (cfg : Config) (r : VCFRecord) :
    inRegion cfg r = false ↔ (r.Pos < cfg.regionStart ∨ r.Pos > cfg.regionEnd) := by
  simp only [inRegion, decide_eq_false_iff_not]
  omega

theorem loopBody_break_iff {α : Type} (cfg : Config) (f : List VCFRecord → α → Except Err α)
    (st : LoopState α) (r : VCFRecord) :
    loopBody cfg f st r = .ok none ↔ inRegion cfg r = false := by
  rw [inRegion_false_iff]
  unfold loopBody
  by_cases hreg : r.Pos < cfg.regionStart ∨ r.Pos > cfg.regionEnd
  · simp [hreg]
  · simp only [if_neg hreg, hreg, iff_false]
    by_cases hchrom : cfg.chrom ≠ "" ∧ cfg.chrom ≠ r.Chrom
    · simp [hchrom]
    · rw [if_neg hchrom]
      by_cases happ : canAppend cfg st r = true
      · simp [happ]
      · rw [if_neg happ]
        cases hf : f st.buffer st.acc with
        | error e => simp
        | ok acc1 =>
          cases hb : st.buffer with
          | nil => simp
          | cons b tl => simp

theorem rangeLoop_takeWhile {α : Type} (cfg : Config) (f : List VCFRecord → α → Except Err α)
    (st : LoopState α) (recs : List VCFRecord) :
    rangeLoop cfg f st recs = rangeLoop cfg f st (recs.takeWhile (inRegion cfg)) := by
  induction recs generalizing st with
  | nil => rfl
  | cons r rs ih =>
    by_cases hin : inRegion cfg r = true
    · rw [List.takeWhile_cons_of_pos hin]
      simp only [rangeLoop]
      cases hb : loopBody cfg f st r with
      | error e => rfl
      | ok o =>
        cases o with
        | none => rfl
        | some st1 => exact ih st1
    · have hout : inRegion cfg r = false := by simpa using hin
      rw [List.takeWhile_cons_of_neg hin]
      simp only [rangeLoop, (loopBody_break_iff cfg f st r).mpr hout]

/-- C12 (region bounds terminate the run): the loop over a record stream is
the loop over the longest prefix of the stream in which every record satisfies
`region_start <= position <= region_end`, both bounds inclusive: one iteration
is a `break` exactly for a record outside the bounds, and whatever follows the
first such record, inside the bounds or not, changes neither the buffer at the
end of the loop nor the state the calls of `compute` produce. -/
theorem region_bounds_terminate {α : Type} (cfg : Config)
    (f : List VCFRecord → α → Except Err α) (init : α) (recs : List VCFRecord) :
    windowRun cfg f init recs = windowRun cfg f init (recs.takeWhile (inRegion cfg))
      ∧ (∀ (pre rest : List VCFRecord) (out : VCFRecord),
          (∀ r ∈ pre, inRegion cfg r = true) → inRegion cfg out = false →
          windowRun cfg f init (pre ++ out :: rest) = windowRun cfg f init pre)
      ∧ (∀ (st : LoopState α) (r : VCFRecord),
          loopBody cfg f st r = .ok none ↔ inRegion cfg r = false)
      ∧ (∀ r : VCFRecord,
          inRegion cfg r = true ↔ cfg.regionStart ≤ r.Pos ∧ r.Pos ≤ cfg.regionEnd) := by
  have hrun : ∀ l : List VCFRecord,
      windowRun cfg f init l = windowRun cfg f init (l.takeWhile (inRegion cfg)) := by
    intro l
    unfold windowRun
    rw [rangeLoop_takeWhile]
  refine ⟨hrun recs, ?_, loopBody_break_iff cfg f, inRegion_iff cfg⟩
  intro pre rest out hpre hout
  rw [hrun (pre ++ out :: rest)]
  have htw : (pre ++ out :: rest).takeWhile (inRegion cfg) = pre := by
    rw [List.takeWhile_append_of_pos hpre, List.takeWhile_cons_of_neg (by simp [hout])]
    simp
  rw [htw]

/-- Witness of C12: with the default bounds 1 to 10^12, the record at
2 * 10^12 ends the run, and the record at 150 behind it is never seen: the
calls of `compute` are those of the stream that stops after the record at
100; a record at exactly `region_start = 1` or `region_end` is inside. -/
theorem region_bounds_terminate_witness :
    dispatchTrace defaultConfig [site "1" 100, site "1" 2000000000000, site "1" 150]
        = dispatchTrace defaultConfig [site "1" 100]
      ∧ dispatchTrace defaultConfig [site "1" 100] = .ok ([site "1" 100], [[site "1" 100]])
      ∧ inRegion defaultConfig (site "1" 1) = true
      ∧ inRegion defaultConfig (site "1" 1000000000000) = true :=
  ⟨(region_bounds_terminate defaultConfig (fun buffer calls => .ok (calls ++ [buffer])) []
      [site "1" 100, site "1" 2000000000000, site "1" 150]).2.1
      [site "1" 100] [site "1" 150] (site "1" 2000000000000) (by decide) (by decide),
    rfl, by decide, by decide⟩

/-! ### The output table -/

theorem filterMap_keys_pairwise {β : Type} (g : Nat → Option (Nat × β))
    (hg : ∀ k v, g k = some v → v.1 = k) (l : List Nat) (hl : l.Pairwise (· < ·)) :
    ((l.filterMap g).map Prod.fst).Pairwise (· < ·) := by
  induction l with
  | nil => simp
  | cons k l ih =>
    have hk := (List.pairwise_cons.mp hl).1
    have ih1 := ih (List.pairwise_cons.mp hl).2
    cases hgk : g k with
    | none => simpa [List.filterMap_cons, hgk] using ih1
    | some v =>
      simp only [List.filterMap_cons, hgk, List.map_cons]
      refine List.pairwise_cons.mpr ⟨?_, ih1⟩
      intro x hx
      obtain ⟨w, hw, hwx⟩ := List.mem_map.mp hx
      obtain ⟨j, hj, hgj⟩ := List.mem_filterMap.mp hw
      rw [hg k v hgk, ← hwx, hg j w hgj]
      exact hk j hj

/-- C11 (output rows): for every state of the two arrays (of equal length, as
`main` allocates them) the output loop returns, and the rows it writes, read
as (lag, count, label), are exactly the entries `(k, p2counts[k], label k)`
for the lags `k = 0, 1, ...` with `p2counts[k] > 0`, in increasing order of
`k`: no lag appears twice, a lag has a row exactly when its count is positive,
each row reports the count of its lag, and the label is `Ks` for lag 0 and
`P2` for every other lag. -/
theorem output_rows {F : Type} (ops : FloatOps F) (acc : Acc F)
    (hlen : acc.p2arr.length = acc.p2counts.length) :
    ∃ rows, outputRows ops acc = .ok rows
      ∧ rows.map rowKey = (List.range acc.p2counts.length).filterMap (fun k =>
          match acc.p2counts[k]? with
          | some n =>
            if n > 0 then some ((k, n, if k = 0 then "Ks" else "P2") : Nat × Int × String)
            else none
          | none => none)
      ∧ (rows.map (fun r => r.l)).Pairwise (· < ·)
      ∧ (∀ k : Nat, (∃ r ∈ rows, r.l = k) ↔ ∃ c, acc.p2counts[k]? = some c ∧ 0 < c)
      ∧ (∀ r ∈ rows, acc.p2counts[r.l]? = some r.n ∧ 0 < r.n
          ∧ r.t = (if r.l = 0 then "Ks" else "P2")
          ∧ (r.t = "Ks" ↔ r.l = 0) ∧ (r.t = "P2" ↔ r.l ≠ 0)) := by
  have hex : ∃ rows, outputRows ops acc = .ok rows
      ∧ rows.map rowKey = (List.range acc.p2counts.length).filterMap (fun k =>
          match acc.p2counts[k]? with
          | some n =>
            if n > 0 then some ((k, n, if k = 0 then "Ks" else "P2") : Nat × Int × String)
            else none
          | none => none) := by
    unfold outputRows
    by_cases h0 : acc.p2arr.length = 0
    · rw [← hlen, h0]
      exact ⟨[], rfl, rfl⟩
    · obtain ⟨s0, hs0⟩ := index_zero_of_pos acc.p2arr (Nat.pos_of_ne_zero h0)
      obtain ⟨c0, hc0⟩ := index_zero_of_pos acc.p2counts (hlen ▸ Nat.pos_of_ne_zero h0)
      have := outputLoop_rows ops acc s0 c0 hs0 hc0 (List.range acc.p2arr.length)
        (fun k hk => ⟨List.mem_range.mp hk, hlen ▸ List.mem_range.mp hk⟩)
      rw [← hlen]
      exact this
  obtain ⟨rows, hrows, hkeys⟩ := hex
  have hmem : ∀ r ∈ rows, acc.p2counts[r.l]? = some r.n ∧ 0 < r.n
      ∧ r.t = (if r.l = 0 then "Ks" else "P2") := by
    intro r hr
    have h1 : rowKey r ∈ rows.map rowKey := List.mem_map_of_mem _ hr
    rw [hkeys] at h1
    obtain ⟨k, _, hk⟩ := List.mem_filterMap.mp h1
    cases hc : acc.p2counts[k]? with
    | none => simp [hc] at hk
    | some c =>
      simp only [hc] at hk
      by_cases hpos : c > 0
      · rw [if_pos hpos] at hk
        have hk2 := Option.some.inj hk
        simp only [rowKey, Prod.mk.injEq] at hk2
        obtain ⟨e1, e2, e3⟩ := hk2
        subst e1
        subst e2
        exact ⟨hc, hpos, e3.symm⟩
      · rw [if_neg hpos] at hk
        simp at hk
  refine ⟨rows, hrows, hkeys, ?_, ?_, ?_⟩
  · have hfst : rows.map (fun r => r.l) = (rows.map rowKey).map Prod.fst := by
      simp [List.map_map, Function.comp_def, rowKey]
    rw [hfst, hkeys]
    refine filterMap_keys_pairwise _ ?_ _ (List.pairwise_lt_range _)
    intro k v hv
    cases hc : acc.p2counts[k]? with
    | none => simp [hc] at hv
    | some c =>
      simp only [hc] at hv
      by_cases hpos : c > 0
      · rw [if_pos hpos] at hv
        rw [← Option.some.inj hv]
      · rw [if_neg hpos] at hv
        simp at hv
  · intro k
    constructor
    · rintro ⟨r, hr, hrk⟩
      obtain ⟨h1, h2, _⟩ := hmem r hr
      exact ⟨r.n, hrk ▸ h1, h2⟩
    · rintro ⟨c, hc, hpos⟩
      have hklt : k < acc.p2counts.length := by
        by_contra hge
        rw [List.getElem?_eq_none (not_lt.mp hge)] at hc
        simp at hc
      have h1 : ((k, c, if k = 0 then "Ks" else "P2") : Nat × Int × String)
          ∈ rows.map rowKey := by
        rw [hkeys]
        refine List.mem_filterMap.mpr ⟨k, List.mem_range.mpr hklt, ?_⟩
        simp only [hc, if_pos hpos]
      obtain ⟨r, hr, hrk⟩ := List.mem_map.mp h1
      refine ⟨r, hr, ?_⟩
      have := congrArg Prod.fst hrk
      simpa [rowKey] using this
  · intro r hr
    obtain ⟨h1, h2, h3⟩ := hmem r hr
    refine ⟨h1, h2, h3, ?_, ?_⟩
    · rw [h3]
      by_cases h0 : r.l = 0
      · simp [h0]
      · simp [h0]
    · rw [h3]
      by_cases h0 : r.l = 0
      · simp [h0]
      · simp [h0]

/-- Witness of C11: the arrays with counts 2, 0, 1 give the rows (0, 2, Ks)
and (2, 1, P2), and none for lag 1. -/
theorem output_rows_witness :
    ∃ rows, outputRows exactOps { p2arr := [1, 0, 1], p2counts := [2, 0, 1] } = .ok rows
      ∧ rows.map rowKey = [(0, 2, "Ks"), (2, 1, "P2")] := by
  obtain ⟨rows, h1, h2, _⟩ :=
    output_rows exactOps { p2arr := [1, 0, 1], p2counts := [2, 0, 1] } rfl
  exact ⟨rows, h1, h2.trans (by decide)⟩


/-! ### The position field -/

theorem parseDigits_none (ds : List Char) (acc : Nat) (h : ds.all isDigitChar = false) :
    parseDigits acc ds = none := by
  induction ds generalizing acc with
  | nil => simp at h
  | cons c cs ih =>
    unfold parseDigits
    by_cases hc : 48 ≤ c.toNat ∧ c.toNat ≤ 57
    · rw [if_pos hc]
      apply ih
      have hd : isDigitChar c = true := by simp [isDigitChar, hc]
      simpa [List.all_cons, hd] using h
    · rw [if_neg hc]

theorem strconvAtoi_none_of_not_decimal (s : String) (h : isDecimalInteger s = false) :
    strconvAtoi s = none := by
  unfold isDecimalInteger at h
  unfold strconvAtoi
  cases hs : s.data with
  | nil => rfl
  | cons c cs =>
    simp only [hs] at h
    by_cases hm : c = '-'
    · simp only [hm, true_or, if_true] at h
      simp only [hm, if_true]
      cases cs with
      | nil => rfl
      | cons d ds =>
        have hall : (d :: ds).all isDigitChar = false := by simpa using h
        simp only [parseDigits_none (d :: ds) 0 hall]
    · by_cases hp : c = '+'
      · simp only [hp, or_true, if_true] at h
        simp only [hp, if_true]
        have hne : ('+' : Char) ≠ '-' := by decide
        simp only [if_neg hne]
        cases cs with
        | nil => rfl
        | cons d ds =>
          have hall : (d :: ds).all isDigitChar = false := by simpa using h
          simp only [parseDigits_none (d :: ds) 0 hall]
      · have hor : ¬ (c = '-' ∨ c = '+') := by simp [hm, hp]
        rw [if_neg hor] at h
        simp only [if_neg hm, if_neg hp, parseDigits_none (c :: cs) 0 h]

theorem term_zero_of_term_one (terms : List String) (s : String) (h : term terms 1 = .ok s) :
    ∃ t, term terms 0 = .ok t := by
  cases terms with
  | nil => simp [term] at h
  | cons t rest => exact ⟨t, by simp [term]⟩

theorem term_error (terms : List String) (i : Nat) (e : Err) (h : term terms i = .error e) :
    e = .indexOutOfRange := by
  unfold term at h
  cases ht : terms[i]? with
  | none =>
    simp only [ht] at h
    exact (Except.error.inj h).symm
  | some t => simp [ht] at h

theorem parseLine_atoi_error (line : String) (h : parseLine line = .error .atoi) :
    ∃ s, term (termsOf line) 1 = .ok s ∧ strconvAtoi s = none := by
  unfold parseLine recordOfTerms at h
  cases h0 : term (termsOf line) 0 with
  | error e =>
    have := term_error _ _ _ h0
    subst this
    simp [h0] at h
  | ok chrom =>
    cases h1 : term (termsOf line) 1 with
    | error e =>
      have := term_error _ _ _ h1
      subst this
      simp [h0, h1] at h
    | ok posText =>
      refine ⟨posText, rfl, ?_⟩
      cases hs : strconvAtoi posText with
      | none => rfl
      | some v =>
        exfalso
        have h2 : atoi posText = .ok v := by simp [atoi, hs]
        simp only [h0, h1, h2] at h
        cases h3 : term (termsOf line) 3 with
        | error e =>
          have := term_error _ _ _ h3
          subst this
          simp [h3] at h
        | ok ref =>
          cases h4 : term (termsOf line) 4 with
          | error e =>
            have := term_error _ _ _ h4
            subst this
            simp [h3, h4] at h
          | ok alt =>
            simp only [h3, h4] at h
            by_cases hlen : len alt = 1 ∧ len ref = 1
            · rw [if_pos hlen] at h
              simp at h
            · rw [if_neg hlen] at h
              simp at h

theorem parseLine_bad_position (line s : String) (hs : term (termsOf line) 1 = .ok s)
    (hbad : strconvAtoi s = none) : parseLine line = .error .atoi := by
  obtain ⟨t, ht⟩ := term_zero_of_term_one _ _ hs
  have h2 : atoi s = .error .atoi := by simp [atoi, hbad]
  simp only [parseLine, recordOfTerms, ht, hs, h2]

theorem readVCFLines_cons (line : String) (rest : List String) :
    readVCFLines (line :: rest)
      = (if isComment line then readVCFLines rest
         else match parseLine line with
           | .error e => ([], some e)
           | .ok none => readVCFLines rest
           | .ok (some r) => (r :: (readVCFLines rest).1, (readVCFLines rest).2)) := by
  rw [readVCFLines]

theorem readVCFLines_append (pre rest : List String) :
    readVCFLines (pre ++ rest)
      = (match (readVCFLines pre).2 with
         | some e => ((readVCFLines pre).1, some e)
         | none => ((readVCFLines pre).1 ++ (readVCFLines rest).1, (readVCFLines rest).2)) := by
  induction pre with
  | nil =>
    have h : (readVCFLines []).2 = none := rfl
    have h1 : (readVCFLines []).1 = [] := rfl
    simp [h, h1]
  | cons line pre ih =>
    rw [List.cons_append, readVCFLines_cons line (pre ++ rest), readVCFLines_cons line pre]
    by_cases hc : isComment line = true
    · simp only [if_pos hc]
      exact ih
    · simp only [if_neg hc]
      cases hp : parseLine line with
      | error e => simp
      | ok o =>
        cases o with
        | none =>
          simp only
          exact ih
        | some r =>
          simp only [ih]
          cases h2 : (readVCFLines pre).2 with
          | none => simp
          | some e => simp

/-- C13 (fatal position parse), the claim as stated fails: an input whose only
line is a non-comment data line with the position `12x` and no newline at its
end: `ReadString` returns it together with `io.EOF`, the read loop leaves on
the `break` before the line is parsed, and the record stream ends without a
failure and without a record. -/
theorem unterminated_line_not_parsed :
    readVCF "1\t12x\t.\tA\tC\t.\t.\t.\tGT\t0|0" = ([], none)
      ∧ readLines [] "1\t12x\t.\tA\tC\t.\t.\t.\tGT\t0|0".data = []
      ∧ isComment "1\t12x\t.\tA\tC\t.\t.\t.\tGT\t0|0" = false
      ∧ term (termsOf "1\t12x\t.\tA\tC\t.\t.\t.\tGT\t0|0") 1 = .ok "12x"
      ∧ isDecimalInteger "12x" = false
      ∧ parseLine "1\t12x\t.\tA\tC\t.\t.\t.\tGT\t0|0" = .error .atoi :=
  ⟨rfl, by decide, by decide, rfl, by decide, rfl⟩

/-- C13 (fatal position parse), amended: if a non-comment line of the input
that ends with its newline (a line the read loop gets from `ReadString`
without `io.EOF`) has a second column that is not a decimal integer, reading
that line panics in `atoi`: the record stream ends in a failure, raised at
that line unless an earlier line already failed, and the records it emitted
are exactly those of the lines before it, none for that line or any later
line. Conversely a line whose second column `strconv.Atoi` accepts never fails
in `atoi`. -/
theorem fatal_position_parse (content : String) (pre rest : List String) (bad s : String)
    (hlines : readLines [] content.data = pre ++ bad :: rest)
    (hc : isComment bad = false) (hs : term (termsOf bad) 1 = .ok s)
    (hbad : isDecimalInteger s = false) :
    parseLine bad = .error .atoi
      ∧ (readVCF content).1 = (readVCFLines pre).1
      ∧ (readVCF content).2 ≠ none
      ∧ ((readVCFLines pre).2 = none → (readVCF content).2 = some .atoi)
      ∧ (∀ (line t : String) (v : Int), term (termsOf line) 1 = .ok t →
          strconvAtoi t = some v → atoi t = .ok v ∧ parseLine line ≠ .error .atoi) := by
  have hparse : parseLine bad = .error .atoi :=
    parseLine_bad_position bad s hs (strconvAtoi_none_of_not_decimal s hbad)
  have hbadline : readVCFLines (bad :: rest) = ([], some .atoi) := by
    rw [readVCFLines_cons, if_neg (by simp [hc]), hparse]
  have hall : readVCF content
      = (match (readVCFLines pre).2 with
         | some e => ((readVCFLines pre).1, some e)
         | none => ((readVCFLines pre).1, some .atoi)) := by
    unfold readVCF
    rw [hlines, readVCFLines_append, hbadline]
    simp
  refine ⟨hparse, ?_, ?_, ?_, ?_⟩
  · rw [hall]
    cases (readVCFLines pre).2 <;> rfl
  · rw [hall]
    cases (readVCFLines pre).2 <;> simp
  · intro hnone
    rw [hall, hnone]
  · intro line t v ht hv
    refine ⟨by simp [atoi, hv], ?_⟩
    intro herr
    obtain ⟨t2, ht2, hnone⟩ := parseLine_atoi_error line herr
    rw [ht] at ht2
    have := Except.ok.inj ht2
    subst this
    rw [hv] at hnone
    simp at hnone

/-- Witness of C13: a file whose second data line has the position `12x`: the
stream emits the record of the first line and then fails in `atoi`; the third
line yields nothing. -/
theorem fatal_position_parse_witness :
    readVCF ("1\t100\t.\tA\tC\t.\t.\t.\tGT\t0|0\n" ++ "1\t12x\t.\tA\tC\t.\t.\t.\tGT\t0|0\n"
        ++ "1\t150\t.\tA\tC\t.\t.\t.\tGT\t0|0\n") = ([site "1" 100], some .atoi)
      ∧ parseLine "1\t12x\t.\tA\tC\t.\t.\t.\tGT\t0|0\n" = .error .atoi :=
  ⟨rfl, (fatal_position_parse
      ("1\t100\t.\tA\tC\t.\t.\t.\tGT\t0|0\n" ++ "1\t12x\t.\tA\tC\t.\t.\t.\tGT\t0|0\n"
        ++ "1\t150\t.\tA\tC\t.\t.\t.\tGT\t0|0\n")
      ["1\t100\t.\tA\tC\t.\t.\t.\tGT\t0|0\n"] ["1\t150\t.\tA\tC\t.\t.\t.\tGT\t0|0\n"]
      "1\t12x\t.\tA\tC\t.\t.\t.\tGT\t0|0\n" "12x" (by decide) (by decide) (by rfl)
      (by decide)).1⟩


/-! ### Totality of `compute` -/

theorem index_ok_of_lt {α : Type} (xs : List α) (i : Int) (h0 : 0 ≤ i)
    (hlt : i.toNat < xs.length) : ∃ v, index xs i = .ok v := by
  refine ⟨xs[i.toNat], ?_⟩
  rw [index_eq_ok_iff]
  exact ⟨h0, by simp [hlt]⟩

theorem index_error_eq {α : Type} (xs : List α) (i : Int) (e : Err)
    (h : index xs i = .error e) : e = .indexOutOfRange := by
  unfold index at h
  by_cases hi : i < 0
  · rw [if_pos hi] at h
    exact (Except.error.inj h).symm
  · rw [if_neg hi] at h
    cases hx : xs[i.toNat]? with
    | none =>
      simp only [hx] at h
      exact (Except.error.inj h).symm
    | some v => simp [hx] at h

theorem addSamples_ok {F : Type} (nc : NuclCov F) (anchor other : List Nat) (keys : List Int)
    (h : ∀ k ∈ keys, 0 ≤ k ∧ k.toNat < anchor.length ∧ k.toNat < other.length)
    (st : nc.State) : ∃ st1, addSamples nc anchor other st keys = .ok st1 := by
  induction keys generalizing st with
  | nil => exact ⟨st, rfl⟩
  | cons k ks ih =>
    obtain ⟨h0, ha, ho⟩ := h k (List.mem_cons_self _ _)
    obtain ⟨a, hia⟩ := index_ok_of_lt anchor k h0 ha
    obtain ⟨b, hib⟩ := index_ok_of_lt other k h0 ho
    simp only [addSamples, hia, hib]
    exact ih (fun j hj => h j (List.mem_cons_of_mem _ hj)) _

theorem sampleKeys_in_range (indexMap : Option (List Int)) (anchor : VCFRecord)
    (hmask : ∀ keys, indexMap = some keys → ∀ k ∈ keys, 0 ≤ k ∧ k < anchor.GTs.length) :
    ∀ k ∈ sampleKeys indexMap anchor, 0 ≤ k ∧ k.toNat < anchor.GTs.length := by
  intro k hk
  cases indexMap with
  | none =>
    simp only [sampleKeys, List.mem_map, List.mem_range] at hk
    obtain ⟨j, hj, hjk⟩ := hk
    subst hjk
    exact ⟨Int.ofNat_nonneg j, by simpa using hj⟩
  | some keys =>
    obtain ⟨h0, h1⟩ := hmask keys rfl k hk
    exact ⟨h0, by omega⟩

theorem foldPair_ok {F : Type} (ops : FloatOps F) (acc : Acc F) (lag : Int) (xy : F) (n : Int)
    (L : Nat) (h0 : 0 ≤ lag) (h1 : lag.toNat < acc.p2arr.length)
    (h2 : lag.toNat < acc.p2counts.length) :
    ∃ acc1, foldPair ops acc lag xy n L = .ok acc1 := by
  unfold foldPair
  by_cases hpass : n > ((L / 2 : Nat) : Int)
  · rw [if_pos hpass]
    obtain ⟨v, hv⟩ := index_ok_of_lt acc.p2arr lag h0 h1
    obtain ⟨c, hc⟩ := index_ok_of_lt acc.p2counts lag h0 h2
    obtain ⟨acc1, hacc1, _⟩ := foldIn_at_lag ops acc lag xy n v c hv hc
    exact ⟨acc1, hacc1⟩
  · rw [if_neg hpass]
    exact ⟨acc, rfl⟩

theorem foldPair_lengths {F : Type} (ops : FloatOps F) (acc acc1 : Acc F) (lag : Int) (xy : F)
    (n : Int) (L : Nat) (h : foldPair ops acc lag xy n L = .ok acc1) :
    acc1.p2arr.length = acc.p2arr.length ∧ acc1.p2counts.length = acc.p2counts.length := by
  unfold foldPair at h
  by_cases hpass : n > ((L / 2 : Nat) : Int)
  · rw [if_pos hpass] at h
    have := foldIn_frame ops acc acc1 lag xy n h
    exact ⟨this.1, this.2.1⟩
  · rw [if_neg hpass] at h
    have := Except.ok.inj h
    subst this
    exact ⟨rfl, rfl⟩

theorem computeOne_lengths {F : Type} (ops : FloatOps F) (nc : NuclCov F)
    (indexMap : Option (List Int)) (anchor other : VCFRecord) (acc acc1 : Acc F)
    (h : computeOne ops nc indexMap anchor other acc = .ok acc1) :
    acc1.p2arr.length = acc.p2arr.length ∧ acc1.p2counts.length = acc.p2counts.length := by
  unfold computeOne at h
  cases hst : addSamples nc anchor.GTs other.GTs (nc.new [48, 49, 50, 51])
      (sampleKeys indexMap anchor) with
  | error e => simp [hst] at h
  | ok st =>
    simp only [hst] at h
    exact foldPair_lengths ops acc acc1 _ _ _ _ h

theorem computeLoop_lengths {F : Type} (ops : FloatOps F) (nc : NuclCov F)
    (indexMap : Option (List Int)) (anchor : VCFRecord) (rest : List VCFRecord)
    (acc acc1 : Acc F) (h : computeLoop ops nc indexMap anchor acc rest = .ok acc1) :
    acc1.p2arr.length = acc.p2arr.length ∧ acc1.p2counts.length = acc.p2counts.length := by
  induction rest generalizing acc with
  | nil =>
    have := Except.ok.inj h
    subst this
    exact ⟨rfl, rfl⟩
  | cons other rest ih =>
    simp only [computeLoop] at h
    cases h1 : computeOne ops nc indexMap anchor other acc with
    | error e => simp [h1] at h
    | ok acc2 =>
      simp only [h1] at h
      have l1 := computeOne_lengths ops nc indexMap anchor other acc acc2 h1
      have l2 := ih acc2 h
      exact ⟨l2.1.trans l1.1, l2.2.trans l1.2⟩

theorem compute_lengths {F : Type} (ops : FloatOps F) (nc : NuclCov F)
    (indexMap : Option (List Int)) (buffer : List VCFRecord) (acc acc1 : Acc F)
    (h : compute ops nc indexMap buffer acc = .ok acc1) :
    acc1.p2arr.length = acc.p2arr.length ∧ acc1.p2counts.length = acc.p2counts.length := by
  cases buffer with
  | nil =>
    have := Except.ok.inj h
    subst this
    exact ⟨rfl, rfl⟩
  | cons anchor rest => exact computeLoop_lengths ops nc indexMap anchor _ acc acc1 h

theorem computeLoop_ok {F : Type} (ops : FloatOps F) (nc : NuclCov F)
    (indexMap : Option (List Int)) (anchor : VCFRecord) (rest : List VCFRecord)
    (hkeys : ∀ k ∈ sampleKeys indexMap anchor, 0 ≤ k ∧ k.toNat < anchor.GTs.length)
    (acc : Acc F)
    (hpre : ∀ r ∈ rest, anchor.GTs.length ≤ r.GTs.length ∧ 0 ≤ subInt r.Pos anchor.Pos
      ∧ (subInt r.Pos anchor.Pos).toNat < acc.p2arr.length)
    (hlen : acc.p2counts.length = acc.p2arr.length) :
    ∃ acc1, computeLoop ops nc indexMap anchor acc rest = .ok acc1 := by
  induction rest generalizing acc with
  | nil => exact ⟨acc, rfl⟩
  | cons other rest ih =>
    obtain ⟨hgt, h0, h1⟩ := hpre other (List.mem_cons_self _ _)
    obtain ⟨st, hst⟩ := addSamples_ok nc anchor.GTs other.GTs (sampleKeys indexMap anchor)
      (fun k hk => ⟨(hkeys k hk).1, (hkeys k hk).2, by have := (hkeys k hk).2; omega⟩)
      (nc.new [48, 49, 50, 51])
    obtain ⟨acc2, hacc2⟩ := foldPair_ok ops acc (subInt other.Pos anchor.Pos)
      (nc.p11 st 0).1 (nc.p11 st 0).2 anchor.GTs.length h0 h1 (by omega)
    have hone : computeOne ops nc indexMap anchor other acc = .ok acc2 := by
      unfold computeOne
      rw [hst]
      exact hacc2
    have hl := computeOne_lengths ops nc indexMap anchor other acc acc2 hone
    obtain ⟨acc1, hacc1⟩ := ih acc2
      (fun r hr => by
        obtain ⟨a, b, c⟩ := hpre r (List.mem_cons_of_mem _ hr)
        exact ⟨a, b, by omega⟩)
      (by omega)
    exact ⟨acc1, by simp only [computeLoop, hone, hacc1]⟩

/-- C20 (`compute` is total under its preconditions): for every buffer in
which every record's genotype vector is at least as long as the anchor's,
every mask index (when a mask is configured) lies in
`0 .. len(anchor.GTs) - 1`, and every lag `buffer[i].Pos - buffer[0].Pos` lies
in `0 .. len(p2arr) - 1`, with `p2counts` of the same length, `compute` returns
without a panic (no index goes out of range), leaving both arrays with their
lengths; on the empty buffer it returns the arrays unchanged. -/
theorem compute_total {F : Type} (ops : FloatOps F) (nc : NuclCov F)
    (indexMap : Option (List Int)) (buffer : List VCFRecord) (acc : Acc F)
    (hpre : ∀ anchor ∈ buffer.head?, ∀ r ∈ buffer,
      anchor.GTs.length ≤ r.GTs.length ∧ 0 ≤ subInt r.Pos anchor.Pos
        ∧ subInt r.Pos anchor.Pos < acc.p2arr.length)
    (hmask : ∀ anchor ∈ buffer.head?, ∀ keys, indexMap = some keys →
      ∀ k ∈ keys, 0 ≤ k ∧ k < anchor.GTs.length)
    (hlen : acc.p2counts.length = acc.p2arr.length) :
    (∃ acc1, compute ops nc indexMap buffer acc = .ok acc1
        ∧ acc1.p2arr.length = acc.p2arr.length
        ∧ acc1.p2counts.length = acc.p2counts.length)
      ∧ compute ops nc indexMap [] acc = .ok acc := by
  refine ⟨?_, rfl⟩
  cases buffer with
  | nil => exact ⟨acc, rfl, rfl, rfl⟩
  | cons anchor rest =>
    have hkeys := sampleKeys_in_range indexMap anchor (hmask anchor rfl)
    obtain ⟨acc1, hacc1⟩ := computeLoop_ok ops nc indexMap anchor (anchor :: rest) hkeys acc
      (fun r hr => by
        obtain ⟨a, b, c⟩ := hpre anchor rfl r hr
        exact ⟨a, b, by omega⟩)
      hlen
    have hl := computeLoop_lengths ops nc indexMap anchor _ acc acc1 hacc1
    exact ⟨acc1, hacc1, hl.1, hl.2⟩

/-- Witness of C20: the buffer of the sites at 100 and 150, no mask, arrays of
length 60: `compute` returns. -/
theorem compute_total_witness :
    ∃ acc1, compute exactOps countingNuclCov none [site "1" 100, site "1" 150]
        { p2arr := List.replicate 60 0, p2counts := List.replicate 60 0 } = .ok acc1
      ∧ acc1.p2arr.length = 60 ∧ acc1.p2counts.length = 60 := by
  have h := (compute_total exactOps countingNuclCov none [site "1" 100, site "1" 150]
    { p2arr := List.replicate 60 0, p2counts := List.replicate 60 0 }
    (by
      intro anchor ha r hr
      have ha1 : anchor = site "1" 100 := by simpa using ha.symm
      subst ha1
      simp only [List.mem_cons, List.mem_singleton, List.not_mem_nil, or_false] at hr
      rcases hr with hr | hr <;> subst hr <;> decide)
    (by intro anchor _ keys hk; simp at hk)
    (by simp)).1
  simpa using h

/-! ### A small subpopulation mask -/

theorem addSamples_count {F : Type} (nc : NuclCov F) (cnt : nc.State → Nat)
    (hadd : ∀ s a b, cnt (nc.add s a b) ≤ cnt s + 1) (anchor other : List Nat)
    (keys : List Int) (st st1 : nc.State)
    (h : addSamples nc anchor other st keys = .ok st1) : cnt st1 ≤ cnt st + keys.length := by
  induction keys generalizing st with
  | nil =>
    have := Except.ok.inj h
    subst this
    simp
  | cons k ks ih =>
    simp only [addSamples] at h
    cases ha : index anchor k with
    | error e => simp [ha] at h
    | ok a =>
      cases hb : index other k with
      | error e => simp [ha, hb] at h
      | ok b =>
        simp only [ha, hb] at h
        have h1 := ih _ h
        have h2 : cnt (if validPair a b = true then nc.add st a b else st) ≤ cnt st + 1 := by
          by_cases hv : validPair a b = true
          · rw [if_pos hv]
            exact hadd st a b
          · rw [if_neg hv]
            omega
        simp only [List.length_cons]
        omega

theorem computeOne_small_mask {F : Type} (ops : FloatOps F) (nc : NuclCov F)
    (cnt : nc.State → Nat) (hnew : cnt (nc.new [48, 49, 50, 51]) = 0)
    (hadd : ∀ s a b, cnt (nc.add s a b) ≤ cnt s + 1)
    (hn : ∀ s m, (nc.p11 s m).2 ≤ (cnt s : Int)) (keys : List Int)
    (anchor other : VCFRecord) (hsmall : keys.length ≤ anchor.GTs.length / 2) (acc : Acc F) :
    (∀ acc1, computeOne ops nc (some keys) anchor other acc = .ok acc1 → acc1 = acc)
      ∧ (∀ st, addSamples nc anchor.GTs other.GTs (nc.new [48, 49, 50, 51]) keys = .ok st →
          computeOne ops nc (some keys) anchor other acc = .ok acc) := by
  have hok : ∀ st, addSamples nc anchor.GTs other.GTs (nc.new [48, 49, 50, 51]) keys = .ok st →
      computeOne ops nc (some keys) anchor other acc = .ok acc := by
    intro st hst
    have hc := addSamples_count nc cnt hadd anchor.GTs other.GTs keys _ st hst
    have hn1 := hn st 0
    have hfail : ¬ (nc.p11 st 0).2 > ((anchor.GTs.length / 2 : Nat) : Int) := by
      rw [hnew] at hc
      omega
    have hkeys : sampleKeys (some keys) anchor = keys := rfl
    unfold computeOne
    rw [hkeys, hst]
    simp only [foldPair, if_neg hfail]
  refine ⟨?_, hok⟩
  intro acc1 h
  cases hst : addSamples nc anchor.GTs other.GTs (nc.new [48, 49, 50, 51]) keys with
  | error e =>
    have hkeys : sampleKeys (some keys) anchor = keys := rfl
    unfold computeOne at h
    rw [hkeys, hst] at h
    simp at h
  | ok st =>
    rw [hok st hst] at h
    exact (Except.ok.inj h).symm

theorem computeLoop_small_mask {F : Type} (ops : FloatOps F) (nc : NuclCov F)
    (cnt : nc.State → Nat) (hnew : cnt (nc.new [48, 49, 50, 51]) = 0)
    (hadd : ∀ s a b, cnt (nc.add s a b) ≤ cnt s + 1)
    (hn : ∀ s m, (nc.p11 s m).2 ≤ (cnt s : Int)) (keys : List Int)
    (anchor : VCFRecord) (hsmall : keys.length ≤ anchor.GTs.length / 2) (acc : Acc F)
    (rest : List VCFRecord) :
    (∀ acc1, computeLoop ops nc (some keys) anchor acc rest = .ok acc1 → acc1 = acc)
      ∧ ((∀ r ∈ rest, ∀ k ∈ keys, 0 ≤ k ∧ k < anchor.GTs.length ∧ k < r.GTs.length) →
          computeLoop ops nc (some keys) anchor acc rest = .ok acc) := by
  induction rest with
  | nil =>
    exact ⟨fun acc1 h => (Except.ok.inj h).symm, fun _ => rfl⟩
  | cons other rest ih =>
    obtain ⟨h1, h2⟩ := computeOne_small_mask ops nc cnt hnew hadd hn keys anchor other hsmall acc
    constructor
    · intro acc1 h
      simp only [computeLoop] at h
      cases hone : computeOne ops nc (some keys) anchor other acc with
      | error e => simp [hone] at h
      | ok acc2 =>
        have := h1 acc2 hone
        subst this
        simp only [hone] at h
        exact ih.1 acc1 h
    · intro hkeys
      obtain ⟨st, hst⟩ := addSamples_ok nc anchor.GTs other.GTs keys
        (fun k hk => by
          obtain ⟨a, b, c⟩ := hkeys other (List.mem_cons_self _ _) k hk
          exact ⟨a, by omega, by omega⟩)
        (nc.new [48, 49, 50, 51])
      simp only [computeLoop, h2 st hst]
      exact ih.2 (fun r hr => hkeys r (List.mem_cons_of_mem _ hr))

/-- C19 (a small subpopulation mask silences the output): for every buffer and
every configured mask whose indices (`keys`, each index of the map once)
number at most `len(anchor.GTs)/2`, and an accumulator whose sample count `n`
never exceeds the number of pairs recorded into it (`cnt` counts them), no pair
passes the coverage filter: whenever `compute` returns, both arrays are
unchanged, and it does return them unchanged when every mask index is a valid
index of every genotype vector of the buffer. -/
theorem small_mask_silences {F : Type} (ops : FloatOps F) (nc : NuclCov F)
    (cnt : nc.State → Nat) (hnew : cnt (nc.new [48, 49, 50, 51]) = 0)
    (hadd : ∀ s a b, cnt (nc.add s a b) ≤ cnt s + 1)
    (hn : ∀ s m, (nc.p11 s m).2 ≤ (cnt s : Int)) (keys : List Int)
    (buffer : List VCFRecord) (acc : Acc F)
    (hsmall : ∀ anchor ∈ buffer.head?, keys.length ≤ anchor.GTs.length / 2) :
    (∀ acc1, compute ops nc (some keys) buffer acc = .ok acc1 → acc1 = acc)
      ∧ ((∀ r ∈ buffer, ∀ k ∈ keys, 0 ≤ k ∧ k < r.GTs.length) →
          compute ops nc (some keys) buffer acc = .ok acc) := by
  cases buffer with
  | nil => exact ⟨fun acc1 h => (Except.ok.inj h).symm, fun _ => rfl⟩
  | cons anchor rest =>
    obtain ⟨h1, h2⟩ := computeLoop_small_mask ops nc cnt hnew hadd hn keys anchor
      (hsmall anchor rfl) acc (anchor :: rest)
    refine ⟨h1, ?_⟩
    intro hkeys
    apply h2
    intro r hr k hk
    exact ⟨(hkeys r hr k hk).1, (hkeys anchor (List.mem_cons_self _ _) k hk).2,
      (hkeys r hr k hk).2⟩

/-- Witness of C19: the sites at 100 and 150 have four codes each; with the
mask of the two indices 0 and 1 the counting accumulator reports `n = 2`, not
more than half of 4, and `compute` returns the arrays unchanged. -/
theorem small_mask_silences_witness :
    compute exactOps countingNuclCov (some [0, 1]) [site "1" 100, site "1" 150]
        { p2arr := List.replicate 60 0, p2counts := List.replicate 60 0 }
      = .ok { p2arr := List.replicate 60 0, p2counts := List.replicate 60 0 } :=
  (small_mask_silences exactOps countingNuclCov (fun s => s.2) rfl
    (fun s a b => Nat.le_refl _) (fun s m => le_refl _) [0, 1]
    [site "1" 100, site "1" 150]
    { p2arr := List.replicate 60 0, p2counts := List.replicate 60 0 }
    (by
      intro anchor ha
      have ha1 : anchor = site "1" 100 := by simpa using ha.symm
      subst ha1
      decide)).2
    (by
      intro r hr k hk
      simp only [List.mem_cons, List.mem_singleton, List.not_mem_nil, or_false] at hr hk
      rcases hr with hr | hr <;> subst hr <;> rcases hk with hk | hk <;> subst hk <;> decide)

/-! ### The order of the mask's indices -/

theorem addSamples_swap {F : Type} (nc : NuclCov F)
    (hcomm : ∀ s a b c d, nc.add (nc.add s a b) c d = nc.add (nc.add s c d) a b)
    (anchor other : List Nat) (st : nc.State) (x y : Int) (l : List Int) :
    addSamples nc anchor other st (y :: x :: l) = addSamples nc anchor other st (x :: y :: l) := by
  simp only [addSamples]
  cases hax : index anchor x with
  | error e1 =>
    have := index_error_eq _ _ _ hax
    subst this
    cases hay : index anchor y with
    | error e2 =>
      have := index_error_eq _ _ _ hay
      subst this
      rfl
    | ok a2 =>
      cases hoy : index other y with
      | error e3 =>
        have := index_error_eq _ _ _ hoy
        subst this
        rfl
      | ok b2 => rfl
  | ok a1 =>
    cases hox : index other x with
    | error e1 =>
      have := index_error_eq _ _ _ hox
      subst this
      cases hay : index anchor y with
      | error e2 =>
        have := index_error_eq _ _ _ hay
        subst this
        rfl
      | ok a2 =>
        cases hoy : index other y with
        | error e3 =>
          have := index_error_eq _ _ _ hoy
          subst this
          rfl
        | ok b2 => rfl
    | ok b1 =>
      cases hay : index anchor y with
      | error e2 => rfl
      | ok a2 =>
        cases hoy : index other y with
        | error e3 => rfl
        | ok b2 =>
          simp only
          by_cases h1 : validPair a1 b1 = true <;> by_cases h2 : validPair a2 b2 = true
          · simp only [h1, h2, if_true, hcomm st a2 b2 a1 b1]
          · simp [h1, h2]
          · simp [h1, h2]
          · simp [h1, h2]

theorem addSamples_perm {F : Type} (nc : NuclCov F)
    (hcomm : ∀ s a b c d, nc.add (nc.add s a b) c d = nc.add (nc.add s c d) a b)
    (anchor other : List Nat) (keys1 keys2 : List Int) (hperm : keys1.Perm keys2)
    (st : nc.State) :
    addSamples nc anchor other st keys1 = addSamples nc anchor other st keys2 := by
  induction hperm generalizing st with
  | nil => rfl
  | cons k _ ih =>
    simp only [addSamples]
    cases index anchor k with
    | error e => rfl
    | ok a =>
      cases index other k with
      | error e => rfl
      | ok b => exact ih _
  | swap x y l => exact addSamples_swap nc hcomm anchor other st x y l
  | trans _ _ ih1 ih2 => exact (ih1 st).trans (ih2 st)

theorem computeOne_perm {F : Type} (ops : FloatOps F) (nc : NuclCov F)
    (hcomm : ∀ s a b c d, nc.add (nc.add s a b) c d = nc.add (nc.add s c d) a b)
    (keys1 keys2 : List Int) (hperm : keys1.Perm keys2) (anchor other : VCFRecord)
    (acc : Acc F) :
    computeOne ops nc (some keys1) anchor other acc
      = computeOne ops nc (some keys2) anchor other acc := by
  unfold computeOne
  simp only [sampleKeys]
  rw [addSamples_perm nc hcomm anchor.GTs other.GTs keys1 keys2 hperm]

theorem computeLoop_perm {F : Type} (ops : FloatOps F) (nc : NuclCov F)
    (hcomm : ∀ s a b c d, nc.add (nc.add s a b) c d = nc.add (nc.add s c d) a b)
    (keys1 keys2 : List Int) (hperm : keys1.Perm keys2) (anchor : VCFRecord)
    (rest : List VCFRecord) (acc : Acc F) :
    computeLoop ops nc (some keys1) anchor acc rest
      = computeLoop ops nc (some keys2) anchor acc rest := by
  induction rest generalizing acc with
  | nil => rfl
  | cons other rest ih =>
    simp only [computeLoop, computeOne_perm ops nc hcomm keys1 keys2 hperm anchor other acc]
    cases computeOne ops nc (some keys2) anchor other acc with
    | error e => rfl
    | ok acc1 => exact ih acc1

/-- C14 (determinism with a subpopulation mask): for an accumulator in which
recording pairs commutes, every buffer and every state of the two arrays, two
enumerations `keys1`, `keys2` of the same mask (one a permutation of the
other) give the same result of `compute`, the same arrays or the same panic,
and already the same result for every single pair of the buffer, so the order
may even change from one pair to the next. -/
theorem mask_order_irrelevant {F : Type} (ops : FloatOps F) (nc : NuclCov F)
    (hcomm : ∀ s a b c d, nc.add (nc.add s a b) c d = nc.add (nc.add s c d) a b)
    (keys1 keys2 : List Int) (hperm : keys1.Perm keys2) (buffer : List VCFRecord)
    (acc : Acc F) :
    compute ops nc (some keys1) buffer acc = compute ops nc (some keys2) buffer acc
      ∧ ∀ (anchor other : VCFRecord) (acc0 : Acc F),
          computeOne ops nc (some keys1) anchor other acc0
            = computeOne ops nc (some keys2) anchor other acc0 := by
  refine ⟨?_, fun anchor other acc0 =>
    computeOne_perm ops nc hcomm keys1 keys2 hperm anchor other acc0⟩
  cases buffer with
  | nil => rfl
  | cons anchor rest =>
    exact computeLoop_perm ops nc hcomm keys1 keys2 hperm anchor (anchor :: rest) acc

/-- Witness of C14: the counting accumulator commutes; the masks enumerated as
0, 1, 2 and as 2, 0, 1 give the same arrays for the sites at 100 and 150. -/
theorem mask_order_irrelevant_witness :
    compute exactOps countingNuclCov (some [0, 1, 2]) [site "1" 100, site "1" 150]
        { p2arr := List.replicate 60 0, p2counts := List.replicate 60 0 }
      = compute exactOps countingNuclCov (some [2, 0, 1]) [site "1" 100, site "1" 150]
        { p2arr := List.replicate 60 0, p2counts := List.replicate 60 0 } :=
  (mask_order_irrelevant exactOps countingNuclCov
    (by
      intro s a b c d
      simp only [countingNuclCov]
      split_ifs <;> rfl)
    [0, 1, 2] [2, 0, 1] (by decide) [site "1" 100, site "1" 150]
    { p2arr := List.replicate 60 0, p2counts := List.replicate 60 0 }).1


/-! ### One step of the main loop -/

/-- C15 (out-of-window step), the claim as stated fails: with `--chrom 1`, the
buffer holding the site at 100 of chromosome 1, the in-region record of
chromosome 2 at 600 (500 beyond the anchor, `max_lag = 300`) is skipped by the
chromosome filter: no call of `compute`, and the buffer keeps its first
element. -/
theorem filtered_record_no_dispatch :
    inRegion scenarioConfig (site "2" 600) = true
      ∧ subInt (site "2" 600).Pos (site "1" 100).Pos ≥ scenarioConfig.maxl
      ∧ loopBody scenarioConfig recordCall
          { buffer := [site "1" 100], currentChromo := "", acc := [] } (site "2" 600)
        = .ok (some { buffer := [site "1" 100], currentChromo := "", acc := [] }) :=
  ⟨by decide, by decide, rfl⟩

theorem canAppend_false_of_lag {α : Type} (cfg : Config) (st : LoopState α) (r b0 : VCFRecord)
    (rest : List VCFRecord) (hbuf : st.buffer = b0 :: rest)
    (hlag : subInt r.Pos b0.Pos ≥ cfg.maxl) : canAppend cfg st r = false := by
  unfold canAppend
  rw [hbuf]
  have : ¬ subInt r.Pos b0.Pos < cfg.maxl := by omega
  simp [this]

/-- C15 (out-of-window step), amended: for every state whose buffer is
`b0 :: rest` and every incoming record `r` that is inside the region bounds,
passes the chromosome filter (no `--chrom`, or `--chrom` equal to `r`'s
chromosome) and has `r.Pos - b0.Pos >= max_lag` (the difference as the
program computes it), one iteration of the main loop calls `compute` once, on
the buffer `b0 :: rest`, and, when that call returns, leaves the buffer equal
to `rest`: the first element is removed and `r` is not appended. -/
theorem out_of_window_step {α : Type} (cfg : Config) (f : List VCFRecord → α → Except Err α)
    (st : LoopState α) (r b0 : VCFRecord) (rest : List VCFRecord)
    (hbuf : st.buffer = b0 :: rest) (hin : inRegion cfg r = true)
    (hchrom : cfg.chrom = "" ∨ cfg.chrom = r.Chrom)
    (hlag : subInt r.Pos b0.Pos ≥ cfg.maxl) :
    loopBody cfg f st r
        = (match f (b0 :: rest) st.acc with
           | .error e => .error e
           | .ok acc1 =>
             .ok (some { buffer := rest, currentChromo := st.currentChromo, acc := acc1 }))
      ∧ ∀ (calls : List (List VCFRecord)) (cc : String),
          loopBody cfg recordCall { buffer := b0 :: rest, currentChromo := cc, acc := calls } r
            = .ok (some { buffer := rest, currentChromo := cc,
                          acc := calls ++ [b0 :: rest] }) := by
  have hreg : ¬ (r.Pos < cfg.regionStart ∨ r.Pos > cfg.regionEnd) := by
    have := (inRegion_iff cfg r).mp hin
    omega
  have hch : ¬ (cfg.chrom ≠ "" ∧ cfg.chrom ≠ r.Chrom) := by
    rcases hchrom with h | h
    · simp [h]
    · simp [h]
  constructor
  · have happ := canAppend_false_of_lag cfg st r b0 rest hbuf hlag
    simp only [loopBody, if_neg hreg, if_neg hch, happ, hbuf]
    cases f (b0 :: rest) st.acc with
    | error e => simp
    | ok acc1 => simp
  · intro calls cc
    have happ := canAppend_false_of_lag cfg
      { buffer := b0 :: rest, currentChromo := cc, acc := calls } r b0 rest rfl hlag
    simp only [loopBody, if_neg hreg, if_neg hch, happ, recordCall]
    simp

/-- Witness of C15: with the default flags, the buffer of the sites at 100 and
150 and the incoming site at 600: one call on the buffer, the site at 100
leaves, the site at 600 is not appended. -/
theorem out_of_window_step_witness :
    loopBody defaultConfig recordCall
        { buffer := [site "1" 100, site "1" 150], currentChromo := "", acc := [] }
        (site "1" 600)
      = .ok (some { buffer := [site "1" 150], currentChromo := "",
                    acc := [] ++ [[site "1" 100, site "1" 150]] }) :=
  (out_of_window_step defaultConfig recordCall
    { buffer := [site "1" 100, site "1" 150], currentChromo := "", acc := [] }
    (site "1" 600) (site "1" 100) [site "1" 150] rfl (by decide) (Or.inl rfl)
    (by decide)).2 [] ""

/-! ### The buffer on a sorted stream -/

theorem subInt_eq (a b : Int) (ha : 0 ≤ a ∧ a < 2 ^ 63) (hb : 0 ≤ b ∧ b < 2 ^ 63) :
    subInt a b = a - b := by
  unfold subInt
  exact wrapInt_of_range _ (by omega) (by omega)

theorem dispatchTrace_eq (cfg : Config) (recs : List VCFRecord) :
    dispatchTrace cfg recs = windowRun cfg recordCall [] recs := rfl

theorem trace_loop_invariant (cfg : Config) (recs : List VCFRecord) :
    ∀ (buf : List VCFRecord) (calls : List (List VCFRecord)),
      SortedByPos (buf ++ recs) → PosInRange (buf ++ recs) → WithinLag cfg.maxl buf →
      (∀ c ∈ calls, GoodBuffer cfg.maxl c) →
      ∃ st, rangeLoop cfg recordCall
            { buffer := buf, currentChromo := "", acc := calls } recs = .ok st
        ∧ GoodBuffer cfg.maxl st.buffer ∧ ∀ c ∈ st.acc, GoodBuffer cfg.maxl c := by
  induction recs with
  | nil =>
    intro buf calls hs hr hw hc
    exact ⟨_, rfl, ⟨by simpa using hs, by simpa using hr, hw⟩, hc⟩
  | cons r rs ih =>
    intro buf calls hs hr hw hc
    have hsbuf : SortedByPos buf := (List.pairwise_append.mp hs).1
    have hrbuf : PosInRange buf := fun x hx => hr x (List.mem_append_left _ hx)
    have hrr : 0 ≤ r.Pos ∧ r.Pos < 2 ^ 63 :=
      hr r (List.mem_append_right _ (List.mem_cons_self _ _))
    by_cases hreg : r.Pos < cfg.regionStart ∨ r.Pos > cfg.regionEnd
    · refine ⟨{ buffer := buf, currentChromo := "", acc := calls }, ?_, ⟨hsbuf, hrbuf, hw⟩, hc⟩
      simp only [rangeLoop, loopBody, if_pos hreg]
    · by_cases hchrom : cfg.chrom ≠ "" ∧ cfg.chrom ≠ r.Chrom
      · rw [rangeLoop_skip cfg recordCall _ r rs hreg hchrom]
        refine ih buf calls ?_ ?_ hw hc
        · exact List.Pairwise.sublist
            (List.Sublist.append (List.Sublist.refl buf) (List.sublist_cons_self r rs)) hs
        · intro x hx
          rcases List.mem_append.mp hx with h | h
          · exact hr x (List.mem_append_left _ h)
          · exact hr x (List.mem_append_right _ (List.mem_cons_of_mem _ h))
      · by_cases happ : canAppend cfg
            { buffer := buf, currentChromo := "", acc := calls } r = true
        · rw [rangeLoop_append cfg recordCall _ r rs hreg hchrom happ]
          refine ih (buf ++ [r]) calls ?_ ?_ ?_ hc
          · have : buf ++ [r] ++ rs = buf ++ r :: rs := by simp
            rw [this]
            exact hs
          · have : buf ++ [r] ++ rs = buf ++ r :: rs := by simp
            rw [this]
            exact hr
          · cases buf with
            | nil => intro x hx; simp at hx
            | cons b0 tl =>
              have hb0 := hrbuf b0 (List.mem_cons_self _ _)
              have hlt : subInt r.Pos b0.Pos < cfg.maxl := by
                simpa [canAppend] using happ
              rw [subInt_eq r.Pos b0.Pos hrr hb0] at hlt
              intro x hx
              rcases List.mem_append.mp hx with h | h
              · exact hw x h
              · have := List.mem_singleton.mp h
                subst this
                exact hlt
        · cases buf with
          | nil => exact absurd (by simp [canAppend]) happ
          | cons b0 tl =>
            have hfalse : canAppend cfg
                { buffer := b0 :: tl, currentChromo := "", acc := calls } r = false := by
              simpa using happ
            rw [rangeLoop_dispatch cfg recordCall _ r rs b0 tl (calls ++ [b0 :: tl]) hreg hchrom
              hfalse rfl rfl]
            refine ih tl (calls ++ [b0 :: tl]) ?_ ?_ ?_ ?_
            · exact List.Pairwise.sublist
                (List.Sublist.append (List.sublist_cons_self b0 tl) (List.sublist_cons_self r rs))
                hs
            · intro x hx
              rcases List.mem_append.mp hx with h | h
              · exact hr x (List.mem_append_left _ (List.mem_cons_of_mem _ h))
              · exact hr x (List.mem_append_right _ (List.mem_cons_of_mem _ h))
            · cases tl with
              | nil => trivial
              | cons b1 tl2 =>
                intro x hx
                have h1 : x.Pos - b0.Pos < cfg.maxl := hw x (List.mem_cons_of_mem _ hx)
                have h2 : b0.Pos ≤ b1.Pos :=
                  (List.pairwise_cons.mp hsbuf).1 b1 (List.mem_cons_self _ _)
                omega
            · intro c hcm
              rcases List.mem_append.mp hcm with h | h
              · exact hc c h
              · have := List.mem_singleton.mp h
                subst this
                exact ⟨hsbuf, hrbuf, hw⟩

theorem dispatchTrace_good (cfg : Config) (recs : List VCFRecord) (hsorted : SortedByPos recs)
    (hrange : PosInRange recs) :
    ∃ res, dispatchTrace cfg recs = .ok res ∧ ∀ c ∈ res.2, GoodBuffer cfg.maxl c := by
  obtain ⟨st, hst, hgood, hcalls⟩ := trace_loop_invariant cfg recs [] []
    (by simpa using hsorted) (by simpa using hrange) trivial (by simp)
  refine ⟨(st.buffer, st.acc ++ [st.buffer]), ?_, ?_⟩
  · rw [dispatchTrace_eq]
    unfold windowRun
    rw [hst]
    rfl
  · intro c hc
    rcases List.mem_append.mp hc with h | h
    · exact hcalls c h
    · have := List.mem_singleton.mp h
      subst this
      exact hgood

set_option maxRecDepth 20000 in
/-- C17 (window buffer lag invariant), the claim as stated fails: with the
region bounds opened to the whole range of an `int`, the stream of the
positions `-2^63` and `2^63 - 1024` is non-decreasing, yet the program's
64-bit difference of the two wraps to `-1024 < max_lag`: both records are
buffered together, the lag handed to the arrays is negative, and the run
panics on `p2arr[-1024]`. -/
theorem lag_wraps_on_extreme_positions :
    (site "1" (-9223372036854775808)).Pos ≤ (site "1" 9223372036854774784).Pos
      ∧ dispatchTrace wideRegionConfig
          [site "1" (-9223372036854775808), site "1" 9223372036854774784]
        = .ok ([site "1" (-9223372036854775808), site "1" 9223372036854774784],
               [[site "1" (-9223372036854775808), site "1" 9223372036854774784]])
      ∧ subInt (site "1" 9223372036854774784).Pos (site "1" (-9223372036854775808)).Pos
        = -1024
      ∧ ¬ (0 ≤ subInt (site "1" 9223372036854774784).Pos
            (site "1" (-9223372036854775808)).Pos)
      ∧ mainRun exactOps countingNuclCov none wideRegionConfig
          [site "1" (-9223372036854775808), site "1" 9223372036854774784]
        = .error .indexOutOfRange :=
  ⟨by decide, rfl, by decide, by decide, rfl⟩

/-- C17 (window buffer lag invariant), amended: for every record stream with
non-decreasing positions that are genomic coordinates held in an `int`
(non-negative and below `2^63`) and every `max_lag >= 1`, the loop and the
final flush run without a panic of their own, and at every call of `compute`
every buffered record `r` has `0 <= r.Pos - buffer[0].Pos < max_lag`, the
difference the program computes being the exact one; so the lag is a valid
index of any array of length `max_lag`, as `p2arr` and `p2counts` are. -/
theorem window_lag_invariant (cfg : Config) (recs : List VCFRecord) (hmaxl : 1 ≤ cfg.maxl)
    (hsorted : SortedByPos recs) (hrange : PosInRange recs) :
    ∃ res, dispatchTrace cfg recs = .ok res
      ∧ ∀ call ∈ res.2, ∀ b0 ∈ call.head?, ∀ r ∈ call,
          subInt r.Pos b0.Pos = r.Pos - b0.Pos
            ∧ 0 ≤ subInt r.Pos b0.Pos ∧ subInt r.Pos b0.Pos < cfg.maxl
            ∧ ∀ (β : Type) (xs : List β), xs.length = cfg.maxl.toNat →
                ∃ v, index xs (subInt r.Pos b0.Pos) = .ok v := by
  obtain ⟨res, hres, hgood⟩ := dispatchTrace_good cfg recs hsorted hrange
  refine ⟨res, hres, ?_⟩
  intro call hcall b0 hb0 r hr
  obtain ⟨hs, hrg, hw⟩ := hgood call hcall
  cases call with
  | nil => simp at hr
  | cons c0 tl =>
    have hc0 : c0 = b0 := by simpa using hb0
    subst hc0
    have hrb := hrg c0 (List.mem_cons_self _ _)
    have hrr := hrg r hr
    have heq := subInt_eq r.Pos c0.Pos hrr hrb
    have hbounds : 0 ≤ r.Pos - c0.Pos ∧ r.Pos - c0.Pos < cfg.maxl := by
      rcases List.mem_cons.mp hr with h | h
      · subst h
        omega
      · have h1 : c0.Pos ≤ r.Pos := (List.pairwise_cons.mp hs).1 r h
        have h2 : r.Pos - c0.Pos < cfg.maxl := hw r h
        omega
    refine ⟨heq, by omega, by omega, ?_⟩
    intro β xs hlen
    exact index_ok_of_lt xs _ (by omega) (by omega)

/-- Witness of C17: the sites at 100, 150, 600 with the default flags. -/
theorem window_lag_invariant_witness :
    ∃ res, dispatchTrace defaultConfig [site "1" 100, site "1" 150, site "1" 600] = .ok res
      ∧ ∀ call ∈ res.2, ∀ b0 ∈ call.head?, ∀ r ∈ call,
          subInt r.Pos b0.Pos = r.Pos - b0.Pos
            ∧ 0 ≤ subInt r.Pos b0.Pos ∧ subInt r.Pos b0.Pos < defaultConfig.maxl
            ∧ ∀ (β : Type) (xs : List β), xs.length = defaultConfig.maxl.toNat →
                ∃ v, index xs (subInt r.Pos b0.Pos) = .ok v :=
  window_lag_invariant defaultConfig [site "1" 100, site "1" 150, site "1" 600] (by decide)
    (by simp [SortedByPos, site])
    (by
      intro r hr
      simp only [List.mem_cons, List.mem_singleton, List.not_mem_nil, or_false] at hr
      rcases hr with h | h | h <;> subst h <;> decide)

/-! ### `max_lag = 0` -/

theorem loopBody_acc_invariant {α : Type} (P : α → Prop) (cfg : Config)
    (f : List VCFRecord → α → Except Err α)
    (hf : ∀ buf a a1, f buf a = .ok a1 → P a → P a1) (st st1 : LoopState α) (r : VCFRecord)
    (h : loopBody cfg f st r = .ok (some st1)) (hP : P st.acc) : P st1.acc := by
  unfold loopBody at h
  by_cases hreg : r.Pos < cfg.regionStart ∨ r.Pos > cfg.regionEnd
  · rw [if_pos hreg] at h
    simp at h
  · rw [if_neg hreg] at h
    by_cases hchrom : cfg.chrom ≠ "" ∧ cfg.chrom ≠ r.Chrom
    · rw [if_pos hchrom] at h
      have := Option.some.inj (Except.ok.inj h)
      subst this
      exact hP
    · rw [if_neg hchrom] at h
      by_cases happ : canAppend cfg st r = true
      · rw [if_pos happ] at h
        have := Option.some.inj (Except.ok.inj h)
        subst this
        exact hP
      · rw [if_neg happ] at h
        cases hfa : f st.buffer st.acc with
        | error e => simp [hfa] at h
        | ok acc1 =>
          simp only [hfa] at h
          cases hb : st.buffer with
          | nil => simp [hb] at h
          | cons b tl =>
            simp only [hb] at h
            have := Option.some.inj (Except.ok.inj h)
            subst this
            exact hf _ _ _ hfa hP

theorem rangeLoop_acc_invariant {α : Type} (P : α → Prop) (cfg : Config)
    (f : List VCFRecord → α → Except Err α)
    (hf : ∀ buf a a1, f buf a = .ok a1 → P a → P a1) (recs : List VCFRecord) :
    ∀ (st st1 : LoopState α), rangeLoop cfg f st recs = .ok st1 → P st.acc → P st1.acc := by
  induction recs with
  | nil =>
    intro st st1 h hP
    have := Except.ok.inj h
    subst this
    exact hP
  | cons r rs ih =>
    intro st st1 h hP
    simp only [rangeLoop] at h
    cases hb : loopBody cfg f st r with
    | error e => simp [hb] at h
    | ok o =>
      cases o with
      | none =>
        simp only [hb] at h
        have := Except.ok.inj h
        subst this
        exact hP
      | some st2 =>
        simp only [hb] at h
        exact ih st2 st1 h (loopBody_acc_invariant P cfg f hf st st2 r hb hP)

theorem mainRun_lengths {F : Type} (ops : FloatOps F) (nc : NuclCov F)
    (indexMap : Option (List Int)) (cfg : Config) (recs : List VCFRecord) (acc : Acc F)
    (h : mainRun ops nc indexMap cfg recs = .ok acc) :
    acc.p2arr.length = cfg.maxl.toNat ∧ acc.p2counts.length = cfg.maxl.toNat := by
  unfold mainRun at h
  by_cases hneg : cfg.maxl < 0
  · rw [if_pos hneg] at h
    simp at h
  · rw [if_neg hneg] at h
    unfold windowRun at h
    have hf : ∀ (buf : List VCFRecord) (a a1 : Acc F), compute ops nc indexMap buf a = .ok a1 →
        (a.p2arr.length = cfg.maxl.toNat ∧ a.p2counts.length = cfg.maxl.toNat) →
        (a1.p2arr.length = cfg.maxl.toNat ∧ a1.p2counts.length = cfg.maxl.toNat) := by
      intro buf a a1 hc hP
      have := compute_lengths ops nc indexMap buf a a1 hc
      exact ⟨this.1.trans hP.1, this.2.trans hP.2⟩
    cases hloop : rangeLoop cfg (compute ops nc indexMap)
        { buffer := [], currentChromo := "",
          acc := { p2arr := List.replicate cfg.maxl.toNat ops.zero,
                   p2counts := List.replicate cfg.maxl.toNat 0 } } recs with
    | error e => simp [hloop] at h
    | ok st =>
      simp only [hloop] at h
      have hst := rangeLoop_acc_invariant
        (fun a : Acc F => a.p2arr.length = cfg.maxl.toNat ∧ a.p2counts.length = cfg.maxl.toNat)
        cfg (compute ops nc indexMap) hf recs _ st hloop (by simp)
      cases hfin : compute ops nc indexMap st.buffer st.acc with
      | error e => simp [hfin] at h
      | ok acc1 =>
        simp only [hfin] at h
        have := Except.ok.inj h
        subst this
        exact hf _ _ _ hfin hst

theorem foldPair_empty {F : Type} (ops : FloatOps F) (lag : Int) (xy : F) (n : Int) (L : Nat) :
    foldPair ops { p2arr := [], p2counts := [] } lag xy n L
      = (if n > ((L / 2 : Nat) : Int) then .error .indexOutOfRange
         else .ok { p2arr := [], p2counts := [] }) := by
  unfold foldPair foldIn
  by_cases h : n > ((L / 2 : Nat) : Int)
  · simp only [if_pos h]
    cases hi : index ([] : List F) lag with
    | error e => rw [index_error_eq _ _ _ hi]
    | ok v =>
      have := (index_eq_ok_iff _ _ _).mp hi
      simp at this
  · simp only [if_neg h]

/-- C16 (`max_lag = 0`), the claim as stated fails: with `max-corr-length 0`
and the single site at 100, whose self-pair passes the coverage filter under
the counting accumulator, the only pair dispatched is the self-pair, and the
run does not complete: the arrays have length 0 and `p2arr[0]` is out of
range. -/
theorem zero_max_lag_run_fails :
    dispatchedPairs zeroLagConfig [site "1" 100] = .ok [(site "1" 100, site "1" 100)]
      ∧ mainRun exactOps countingNuclCov none zeroLagConfig [site "1" 100]
        = .error .indexOutOfRange :=
  ⟨rfl, rfl⟩

/-- C16 (`max_lag = 0`), amended: for every record stream with non-decreasing
positions (genomic coordinates, non-negative and below `2^63`) run with
`max_lag = 0`, the loop and the final flush hand `compute` self-pairs only
(other = anchor, lag 0); the two arrays have no entry, so no pair is ever
counted: a run that completes ends with both arrays empty and writes no
row. -/
theorem zero_max_lag (cfg : Config) (recs : List VCFRecord) (hmaxl : cfg.maxl = 0)
    (hsorted : SortedByPos recs) (hrange : PosInRange recs) :
    (∃ res, dispatchTrace cfg recs = .ok res
        ∧ (∀ call ∈ res.2, call.length ≤ 1)
        ∧ ∀ p ∈ pairsOfCalls res.2, p.2 = p.1 ∧ subInt p.2.Pos p.1.Pos = 0)
      ∧ ∀ (F : Type) (ops : FloatOps F) (nc : NuclCov F) (indexMap : Option (List Int))
          (acc : Acc F), mainRun ops nc indexMap cfg recs = .ok acc →
          acc.p2arr = [] ∧ acc.p2counts = [] ∧ outputRows ops acc = .ok [] := by
  constructor
  · obtain ⟨res, hres, hgood⟩ := dispatchTrace_good cfg recs hsorted hrange
    have hshort : ∀ call ∈ res.2, call.length ≤ 1 := by
      intro call hcall
      obtain ⟨hs, _, hw⟩ := hgood call hcall
      cases call with
      | nil => simp
      | cons b0 tl =>
        cases tl with
        | nil => simp
        | cons b1 tl2 =>
          exfalso
          have h1 : b0.Pos ≤ b1.Pos :=
            (List.pairwise_cons.mp hs).1 b1 (List.mem_cons_self _ _)
          have h2 : b1.Pos - b0.Pos < cfg.maxl := hw b1 (List.mem_cons_self _ _)
          omega
    refine ⟨res, hres, hshort, ?_⟩
    intro p hp
    obtain ⟨call, hcall, hpc⟩ := List.mem_flatMap.mp hp
    have hlen := hshort call hcall
    cases call with
    | nil => simp [pairsOfCall] at hpc
    | cons b0 tl =>
      cases tl with
      | nil =>
        have : p = (b0, b0) := by simpa [pairsOfCall] using hpc
        subst this
        exact ⟨rfl, by simp [subInt, wrapInt]⟩
      | cons b1 tl2 => simp at hlen
  · intro F ops nc indexMap acc hrun
    obtain ⟨h1, h2⟩ := mainRun_lengths ops nc indexMap cfg recs acc hrun
    rw [hmaxl] at h1 h2
    have ha : acc.p2arr = [] := List.length_eq_zero.mp (by simpa using h1)
    have hc : acc.p2counts = [] := List.length_eq_zero.mp (by simpa using h2)
    refine ⟨ha, hc, ?_⟩
    unfold outputRows
    rw [ha]
    rfl

/-- Witness of C16: the sites at 100 and 150 with `max-corr-length 0`: the
calls of `compute` receive one record each; with an empty mask no pair passes
the coverage filter and the run completes, both arrays empty. -/
theorem zero_max_lag_witness :
    (∃ res, dispatchTrace zeroLagConfig [site "1" 100, site "1" 150] = .ok res
        ∧ (∀ call ∈ res.2, call.length ≤ 1)
        ∧ ∀ p ∈ pairsOfCalls res.2, p.2 = p.1 ∧ subInt p.2.Pos p.1.Pos = 0)
      ∧ mainRun exactOps countingNuclCov (some []) zeroLagConfig
          [site "1" 100, site "1" 150] = .ok { p2arr := [], p2counts := [] } :=
  ⟨(zero_max_lag zeroLagConfig [site "1" 100, site "1" 150] rfl
      (by simp [SortedByPos, site])
      (by
        intro r hr
        simp only [List.mem_cons, List.mem_singleton, List.not_mem_nil, or_false] at hr
        rcases hr with h | h <;> subst h <;> decide)).1,
    rfl⟩

end McorrVcf
